import Mathlib

/-!
Verification development for the drafter stateful page-replay engine.

The Python source is shallowly embedded: Python runtime values become the
inductive type `PyVal`, JSON-compatible transport values become `JVal`,
type annotations become `PyType`, and each Python function under
verification is translated into an executable Lean definition that follows
the source line by line.  Machine-level aspects that Lean cannot mirror
directly (object identity for cycle detection, `datetime` timestamps,
floating point) are modelled explicitly where a claim needs them and noted
at the definition site.
-/

namespace Drafter

/-- Python runtime values, restricted to the kinds the drafter value codec
recognises: `None`, `bool`, `int`, `str`, `list` (also standing for the
ordered content of sets/tuples), `dict` (as an insertion-ordered
association list), dataclass instances (`vRecord` carries the class name
and the field name/value pairs in declaration order), and `vOpaque` for a
value of any other class (identified by a display string).  Floats are not
modelled. -/
inductive PyVal where
  | vNone : PyVal
  | vBool (b : Bool) : PyVal
  | vInt (n : Int) : PyVal
  | vStr (s : String) : PyVal
  | vList (xs : List PyVal) : PyVal
  | vDict (entries : List (PyVal × PyVal)) : PyVal
  | vRecord (cls : String) (fieldVals : List (String × PyVal)) : PyVal
  | vOpaque (cls : String) : PyVal
deriving Repr

/-- JSON-compatible transport values: what `dehydrate_json` produces.
Python dicts with non-string keys survive dehydration (the source builds a
plain dict comprehension), so `jDict` keys are arbitrary `JVal`s. -/
inductive JVal where
  | jNull : JVal
  | jBool (b : Bool) : JVal
  | jInt (n : Int) : JVal
  | jStr (s : String) : JVal
  | jList (xs : List JVal) : JVal
  | jDict (entries : List (JVal × JVal)) : JVal
deriving Repr

/-- Python type annotations as they reach `rehydrate_json` and
`convert_parameter`: the bare builtins `list` / `dict` (no `__args__`, no
`__origin__`), the parameterised generic aliases `list[...]` / `dict[K,V]`
(which expose `__args__` and `__origin__`), primitive classes, dataclass
types (referenced by class name, resolved in a `RecordCtx`), and an opaque
class. -/
inductive PyType where
  | tNoneType : PyType
  | tBool : PyType
  | tInt : PyType
  | tStr : PyType
  | tList : PyType
  | tListOf (args : List PyType) : PyType
  | tDict : PyType
  | tDictOf (k v : PyType) : PyType
  | tRecord (cls : String) : PyType
  | tOpaque (cls : String) : PyType
deriving Repr

/-- A dataclass declaration context: class name to the declared fields
(name and declared type, in declaration order).  Field defaults are not
modelled; a missing default is Python's `dataclasses.MISSING` sentinel,
embedded as `PyVal.vOpaque "MISSING"`. -/
abbrev RecordCtx := List (String × List (String × PyType))

/-- Python concrete classes, the result of `type(value)`. -/
inductive PyClass where
  | cNoneType | cBool | cInt | cStr | cList | cDict
  | cRecord (cls : String)
  | cOpaque (cls : String)
deriving Repr, DecidableEq

/-- The concrete class of a value: Python `type(value)` / `value.__class__`. -/
def classOf : PyVal → PyClass
  | .vNone => .cNoneType
  | .vBool _ => .cBool
  | .vInt _ => .cInt
  | .vStr _ => .cStr
  | .vList _ => .cList
  | .vDict _ => .cDict
  | .vRecord cls _ => .cRecord cls
  | .vOpaque cls => .cOpaque cls

/-- Python `cls.__name__`. -/
def PyClass.name : PyClass → String
  | .cNoneType => "NoneType"
  | .cBool => "bool"
  | .cInt => "int"
  | .cStr => "str"
  | .cList => "list"
  | .cDict => "dict"
  | .cRecord cls => cls
  | .cOpaque cls => cls

/-- Python `str(cls)` as interpolated by f-strings. -/
def PyClass.display (c : PyClass) : String :=
  "<class " ++ "\x27" ++ c.name ++ "\x27>"

/-- Python `isinstance(value, cls)` for concrete classes.  The only
subclass relation the model keeps is the real Python fact that `bool` is a
subclass of `int`. -/
def isinstanceClass (v : PyVal) (c : PyClass) : Bool :=
  classOf v = c || (classOf v = .cBool && c = .cInt)

/-- First-match lookup in an association list, Python `d[k]` / `k in d`. -/
def alistLookup {α β : Type} [DecidableEq α] : List (α × β) → α → Option β
  | [], _ => none
  | (k, v) :: rest, key => if k = key then some v else alistLookup rest key

/-- Result monad helper: Python list comprehension over a fallible body.
The first raised exception propagates, as in the source. -/
def mapE {ε α β : Type} (f : α → Except ε β) : List α → Except ε (List β)
  | [] => .ok []
  | x :: xs => do
    let y ← f x
    let ys ← mapE f xs
    pure (y :: ys)

theorem mapE_ok_of_forall {ε α β : Type} (f : α → Except ε β) (g : α → β) :
    ∀ (l : List α), (∀ x ∈ l, f x = .ok (g x)) → mapE f l = .ok (l.map g) := by
  intro l
  induction l with
  | nil => intro _; rfl
  | cons x xs ih =>
    intro h
    have hx := h x (by simp)
    have hxs := ih (fun y hy => h y (by simp [hy]))
    rw [List.map_cons, mapE, hx, hxs]
    rfl

theorem mapE_cases {ε α β : Type} (f : α → Except ε β) :
    ∀ (l : List α), (∃ ys, mapE f l = .ok ys) ∨
      ∃ x ∈ l, ∃ e, f x = .error e ∧ mapE f l = .error e := by
  intro l
  induction l with
  | nil => exact .inl ⟨[], rfl⟩
  | cons a as ih =>
    rcases hfa : f a with e | b
    · exact .inr ⟨a, by simp, e, hfa, by rw [mapE, hfa]; rfl⟩
    · rcases ih with ⟨ys, hys⟩ | ⟨x, hx, e, hfx, hmap⟩
      · exact .inl ⟨b :: ys, by rw [mapE, hfa, hys]; rfl⟩
      · exact .inr ⟨x, by simp [hx], e, hfx, by rw [mapE, hfa, hmap]; rfl⟩

theorem mapE_ok_forall {ε α β : Type} (f : α → Except ε β) :
    ∀ (l : List α) (ys : List β), mapE f l = .ok ys → ∀ x ∈ l, ∃ y, f x = .ok y := by
  intro l
  induction l with
  | nil => intro ys _ x hx; cases hx
  | cons a as ih =>
    intro ys h x hx
    rcases hfa : f a with e | b
    · rw [mapE, hfa] at h; cases h
    · rcases hrest : mapE f as with e | bs
      · rw [mapE, hfa, hrest] at h; cases h
      · rcases List.mem_cons.mp hx with rfl | hx'
        · exact ⟨b, hfa⟩
        · exact ih bs hrest x hx'

theorem alistLookup_some_of_mem_ids {α β : Type} [DecidableEq α] :
    ∀ (h : List (α × β)) (i : α), i ∈ h.map Prod.fst →
      ∃ nd, alistLookup h i = some nd := by
  intro h
  induction h with
  | nil => intro i hi; cases hi
  | cons p rest ih =>
    intro i hi
    obtain ⟨k, v⟩ := p
    rw [alistLookup]
    by_cases hk : k = i
    · exact ⟨v, if_pos hk⟩
    · rw [if_neg hk]
      rcases List.mem_cons.mp hi with heq | hi'
      · exact absurd heq.symm hk
      · exact ih i hi'

theorem alistLookup_mem {α β : Type} [DecidableEq α] :
    ∀ (h : List (α × β)) (i : α) (nd : β), alistLookup h i = some nd → (i, nd) ∈ h := by
  intro h
  induction h with
  | nil => intro i nd hl; cases hl
  | cons p rest ih =>
    intro i nd hl
    obtain ⟨k, v⟩ := p
    rw [alistLookup] at hl
    by_cases hk : k = i
    · rw [if_pos hk] at hl
      cases hl
      subst hk
      simp
    · rw [if_neg hk] at hl
      exact List.mem_cons_of_mem _ (ih i nd hl)

/-- Errors raised inside the value codec (`ValueError` messages are kept
as structured data plus the offending value). -/
inductive CodecErr where
  | circular (v : PyVal) : CodecErr
  | unserializable (v : PyVal) : CodecErr
  | badElementType (t : PyType) (v : JVal) : CodecErr
  | unpackArgs (t : PyType) (v : JVal) : CodecErr
  | cannotCreate (t : PyType) (v : JVal) : CodecErr
  | unknownClass (cls : String) : CodecErr
deriving Repr

mutual

/-- Embeds `drafter/history.py` `dehydrate_json` on acyclic values.
Object identities of subterms of a tree value are pairwise distinct, and
the `seen` set of the source is copied per path, so for acyclic values the
circular-reference branch never fires and is omitted here (the cyclic case
is modelled separately on an object graph, see `Graph.dehydrate`).
Branches follow the source order: list/set/tuple, dict, primitives,
dataclass, then the unserializable `ValueError`. -/
def dehydrate_json : PyVal → Except CodecErr JVal
  | .vList xs => (dehydrateElems xs).map .jList
  | .vDict es => (dehydratePairs es).map .jDict
  | .vInt n => .ok (.jInt n)
  | .vStr s => .ok (.jStr s)
  | .vBool b => .ok (.jBool b)
  | .vNone => .ok .jNull
  | .vRecord _ fs => (dehydrateFields fs).map .jDict
  | .vOpaque cls => .error (.unserializable (.vOpaque cls))

/-- Elementwise dehydration of a list/set/tuple body. -/
def dehydrateElems : List PyVal → Except CodecErr (List JVal)
  | [] => .ok []
  | x :: xs => do
    let y ← dehydrate_json x
    let ys ← dehydrateElems xs
    pure (y :: ys)

/-- Dehydration of dict entries: both keys and values are dehydrated, as
in the source's dict comprehension. -/
def dehydratePairs : List (PyVal × PyVal) → Except CodecErr (List (JVal × JVal))
  | [] => .ok []
  | (k, v) :: rest => do
    let k' ← dehydrate_json k
    let v' ← dehydrate_json v
    let rest' ← dehydratePairs rest
    pure ((k', v') :: rest')

/-- Dehydration of dataclass fields: `{f.name: dehydrate_json(getattr(value, f.name))}`. -/
def dehydrateFields : List (String × PyVal) → Except CodecErr (List (JVal × JVal))
  | [] => .ok []
  | (n, v) :: rest => do
    let v' ← dehydrate_json v
    let rest' ← dehydrateFields rest
    pure ((.jStr n, v') :: rest')

end

/-- Python `hasattr(t, '__args__')` together with the `__args__` tuple:
only parameterised generic aliases expose it. -/
def hasArgs : PyType → Option (List PyType)
  | .tListOf args => some args
  | .tDictOf k v => some [k, v]
  | _ => none

/-- Python `getattr(t, '__origin__') == list`. -/
def originIsList : PyType → Bool
  | .tListOf _ => true
  | _ => false

/-- Python `getattr(t, '__origin__') == dict`. -/
def originIsDict : PyType → Bool
  | .tDictOf _ _ => true
  | _ => false

/-- Python `is_dataclass(t) and isinstance(t, type)`. -/
def isDataclassType : PyType → Bool
  | .tRecord _ => true
  | _ => false

mutual

/-- Embeds a transport value back into the runtime value universe
unchanged: Python's `return value` branches of `rehydrate_json` return the
decoded-JSON object itself. -/
def embedJ : JVal → PyVal
  | .jNull => .vNone
  | .jBool b => .vBool b
  | .jInt n => .vInt n
  | .jStr s => .vStr s
  | .jList xs => .vList (embedJList xs)
  | .jDict es => .vDict (embedJPairs es)

/-- Elementwise `embedJ`. -/
def embedJList : List JVal → List PyVal
  | [] => []
  | x :: xs => embedJ x :: embedJList xs

/-- Pairwise `embedJ`. -/
def embedJPairs : List (JVal × JVal) → List (PyVal × PyVal)
  | [] => []
  | (k, v) :: rest => (embedJ k, embedJ v) :: embedJPairs rest

end

/-- Python `f.name in value` / `value[f.name]` on a dehydrated dict whose
keys are compared against a string field name. -/
def jdictLookupStr : List (JVal × JVal) → String → Option JVal
  | [], _ => none
  | (k, v) :: rest, name =>
    match k with
    | .jStr s => if s = name then some v else jdictLookupStr rest name
    | _ => jdictLookupStr rest name

theorem sizeOf_jdictLookupStr :
    ∀ (es : List (JVal × JVal)) (n : String) (jv : JVal),
      jdictLookupStr es n = some jv → sizeOf jv < sizeOf es := by
  intro es
  induction es with
  | nil => intro n jv h; cases h
  | cons p rest ih =>
    intro n jv h
    obtain ⟨k, v⟩ := p
    have hrest : jdictLookupStr rest n = some jv → sizeOf jv < sizeOf ((k, v) :: rest) := by
      intro h'
      have := ih n jv h'
      simp only [List.cons.sizeOf_spec]
      omega
    cases k with
    | jStr s =>
      by_cases hs : s = n
      · simp only [jdictLookupStr, hs, if_pos rfl] at h
        cases h
        simp only [List.cons.sizeOf_spec, Prod.mk.sizeOf_spec]
        omega
      · simp only [jdictLookupStr, if_neg hs] at h
        exact hrest h
    | jNull => exact hrest h
    | jBool b => exact hrest h
    | jInt m => exact hrest h
    | jList xs => exact hrest h
    | jDict es' => exact hrest h

mutual

/-- Embeds `drafter/history.py` `rehydrate_json` (without Pillow support,
so `HAS_PILLOW` is `False` and string values always pass through).
Branch order and fall-through follow the source: a `list` value with a
target type that carries `__args__` decodes elementwise when there is
exactly one argument, a bare-`list` origin returns the value unchanged,
and every remaining list case falls through to the final `ValueError`;
strings and the other primitives pass through unchanged; a `dict` value
unpacks two `__args__` when present (any other argument count is the
uncaught tuple-unpacking error), returns unchanged for a bare-`dict`
origin, reconstructs a dataclass field by field, and otherwise returns the
value unchanged. -/
def rehydrate_json (ctx : RecordCtx) : JVal → PyType → Except CodecErr PyVal
  | .jList xs, t =>
    match hasArgs t with
    | some args =>
      match args with
      | [elementType] => (rehydrateElems ctx xs elementType).map .vList
      | _ => .error (.badElementType t (.jList xs))
    | none =>
      if originIsList t then .ok (embedJ (.jList xs))
      else .error (.cannotCreate t (.jList xs))
  | .jStr s, _ => .ok (.vStr s)
  | .jInt n, _ => .ok (.vInt n)
  | .jBool b, _ => .ok (.vBool b)
  | .jNull, _ => .ok .vNone
  | .jDict es, t =>
    match hasArgs t with
    | some args =>
      match args with
      | [keyType, valueType] => (rehydratePairs ctx es keyType valueType).map .vDict
      | _ => .error (.unpackArgs t (.jDict es))
    | none =>
      if originIsDict t then .ok (embedJ (.jDict es))
      else
        match t with
        | .tRecord cls =>
          match alistLookup ctx cls with
          | some decls => (rehydrateRecFields ctx es decls).map (.vRecord cls)
          | none => .error (.unknownClass cls)
        | _ => .ok (embedJ (.jDict es))
termination_by j _ => (sizeOf j, 0)

/-- Elementwise rehydration of a list body at the declared element type. -/
def rehydrateElems (ctx : RecordCtx) : List JVal → PyType → Except CodecErr (List PyVal)
  | [], _ => .ok []
  | x :: xs, t => do
    let y ← rehydrate_json ctx x t
    let ys ← rehydrateElems ctx xs t
    pure (y :: ys)
termination_by xs _ => (sizeOf xs, 0)

/-- Pairwise rehydration of dict entries at declared key/value types. -/
def rehydratePairs (ctx : RecordCtx) :
    List (JVal × JVal) → PyType → PyType → Except CodecErr (List (PyVal × PyVal))
  | [], _, _ => .ok []
  | (k, v) :: rest, kt, vt => do
    let k' ← rehydrate_json ctx k kt
    let v' ← rehydrate_json ctx v vt
    let rest' ← rehydratePairs ctx rest kt vt
    pure ((k', v') :: rest')
termination_by es _ _ => (sizeOf es, 0)

/-- Reconstruction of dataclass fields: `value[f.name]` decoded at
`f.type` when present, else `f.default` (the `MISSING` sentinel here,
since defaults are not modelled). -/
def rehydrateRecFields (ctx : RecordCtx) (es : List (JVal × JVal)) :
    List (String × PyType) → Except CodecErr (List (String × PyVal))
  | [] => .ok []
  | (n, ft) :: rest =>
    match hlook : jdictLookupStr es n with
    | some jv => do
      have hsz : sizeOf jv < sizeOf es := sizeOf_jdictLookupStr es n jv hlook
      let v ← rehydrate_json ctx jv ft
      let rest' ← rehydrateRecFields ctx es rest
      pure ((n, v) :: rest')
    | none => do
      let rest' ← rehydrateRecFields ctx es rest
      pure ((n, PyVal.vOpaque "MISSING") :: rest')
termination_by decls => (sizeOf es, sizeOf decls)

end

/-- True exactly for the primitive kinds (`bool`, `int`, `str`, `None`). -/
def isPrimVal : PyVal → Bool
  | .vNone | .vBool _ | .vInt _ | .vStr _ => true
  | _ => false

mutual

/-- True when a value contains no dataclass instance and no opaque
object: dehydration of such a value is the identity up to the `JVal`
embedding. -/
def plainVal : PyVal → Bool
  | .vNone | .vBool _ | .vInt _ | .vStr _ => true
  | .vList xs => plainElems xs
  | .vDict es => plainPairs es
  | .vRecord _ _ => false
  | .vOpaque _ => false

/-- Elementwise `plainVal`. -/
def plainElems : List PyVal → Bool
  | [] => true
  | x :: xs => plainVal x && plainElems xs

/-- Pairwise `plainVal`. -/
def plainPairs : List (PyVal × PyVal) → Bool
  | [] => true
  | (k, v) :: rest => plainVal k && plainVal v && plainPairs rest

end

mutual

/-- True when the value contains no opaque object, so `dehydrate_json`
succeeds on it. -/
def okVal : PyVal → Bool
  | .vNone | .vBool _ | .vInt _ | .vStr _ => true
  | .vList xs => okElems xs
  | .vDict es => okPairs es
  | .vRecord _ fs => okFields fs
  | .vOpaque _ => false

/-- Elementwise `okVal`. -/
def okElems : List PyVal → Bool
  | [] => true
  | x :: xs => okVal x && okElems xs

/-- Pairwise `okVal`. -/
def okPairs : List (PyVal × PyVal) → Bool
  | [] => true
  | (k, v) :: rest => okVal k && okVal v && okPairs rest

/-- Fieldwise `okVal`. -/
def okFields : List (String × PyVal) → Bool
  | [] => true
  | (_, v) :: rest => okVal v && okFields rest

end

mutual

/-- The transport value `dehydrate_json` produces on an `okVal` value,
as a total function. -/
def dehy : PyVal → JVal
  | .vNone => .jNull
  | .vBool b => .jBool b
  | .vInt n => .jInt n
  | .vStr s => .jStr s
  | .vList xs => .jList (dehyElems xs)
  | .vDict es => .jDict (dehyPairs es)
  | .vRecord _ fs => .jDict (dehyFields fs)
  | .vOpaque _ => .jNull

/-- Elementwise `dehy`. -/
def dehyElems : List PyVal → List JVal
  | [] => []
  | x :: xs => dehy x :: dehyElems xs

/-- Pairwise `dehy`. -/
def dehyPairs : List (PyVal × PyVal) → List (JVal × JVal)
  | [] => []
  | (k, v) :: rest => (dehy k, dehy v) :: dehyPairs rest

/-- Fieldwise `dehy` with string keys. -/
def dehyFields : List (String × PyVal) → List (JVal × JVal)
  | [] => []
  | (n, v) :: rest => (.jStr n, dehy v) :: dehyFields rest

end

/-- No element occurs twice: Python dataclass field names are distinct. -/
def allDistinct {α : Type} [BEq α] : List α → Bool
  | [] => true
  | x :: xs => !(xs.contains x) && allDistinct xs

mutual

/-- The class of values whose encoded form decodes back to the same
value at the given declared type.  This is the amended round-trip
precondition read off the source: primitives at their own classes,
sequences only under a parameterised `list[T]` annotation, mappings either
under `dict[K,V]` or, at the bare `dict` builtin, only with
dataclass-free content, and dataclass instances whose declared field
types recursively match.  Mapping keys must be primitive (the dehydrated
key has to stay hashable in Python). -/
def faithful (ctx : RecordCtx) : PyVal → PyType → Bool
  | .vNone, .tNoneType => true
  | .vBool _, .tBool => true
  | .vInt _, .tInt => true
  | .vStr _, .tStr => true
  | .vList xs, .tListOf [et] => faithfulElems ctx xs et
  | .vDict es, .tDict => primPlainPairs es
  | .vDict es, .tDictOf kt vt => faithfulPairs ctx es kt vt
  | .vRecord cls fvs, .tRecord cls' =>
    cls = cls' &&
    (match alistLookup ctx cls with
     | some decls => allDistinct (decls.map Prod.fst) && faithfulFields ctx fvs decls
     | none => false)
  | _, _ => false

/-- Elementwise `faithful` at a single element type. -/
def faithfulElems (ctx : RecordCtx) : List PyVal → PyType → Bool
  | [], _ => true
  | x :: xs, t => faithful ctx x t && faithfulElems ctx xs t

/-- Pairwise `faithful` at declared key/value types, with primitive keys. -/
def faithfulPairs (ctx : RecordCtx) : List (PyVal × PyVal) → PyType → PyType → Bool
  | [], _, _ => true
  | (k, v) :: rest, kt, vt =>
    isPrimVal k && faithful ctx k kt && faithful ctx v vt && faithfulPairs ctx rest kt vt

/-- Fieldwise `faithful` against the declared fields, aligned by name. -/
def faithfulFields (ctx : RecordCtx) : List (String × PyVal) → List (String × PyType) → Bool
  | [], [] => true
  | (n, v) :: fr, (n', ft) :: dr => n = n' && faithful ctx v ft && faithfulFields ctx fr dr
  | _, _ => false

/-- Content allowed under a bare `dict` annotation: primitive keys,
dataclass-free values. -/
def primPlainPairs : List (PyVal × PyVal) → Bool
  | [] => true
  | (k, v) :: rest => isPrimVal k && plainVal v && primPlainPairs rest

end

theorem plain_okVal_bounded : ∀ N v, sizeOf v < N → plainVal v = true → okVal v = true := by
  intro N
  induction N with
  | zero => intro v h; omega
  | succ n ih =>
    intro v hlt hpl
    cases v with
    | vNone => rfl
    | vBool b => rfl
    | vInt m => rfl
    | vStr s => rfl
    | vOpaque cls => rw [plainVal] at hpl; cases hpl
    | vRecord cls fs => rw [plainVal] at hpl; cases hpl
    | vList xs =>
      rw [plainVal] at hpl
      rw [okVal]
      have hsz : sizeOf xs < n := by
        have := PyVal.vList.sizeOf_spec xs
        omega
      clear hlt
      induction xs with
      | nil => rfl
      | cons a as ihs =>
        rw [plainElems, Bool.and_eq_true] at hpl
        rw [okElems, Bool.and_eq_true]
        have ha : sizeOf a < n := by
          have := List.cons.sizeOf_spec a as
          omega
        have has : sizeOf as < n := by
          have := List.cons.sizeOf_spec a as
          omega
        exact ⟨ih a ha hpl.1, ihs hpl.2 has⟩
    | vDict es =>
      rw [plainVal] at hpl
      rw [okVal]
      have hsz : sizeOf es < n := by
        have := PyVal.vDict.sizeOf_spec es
        omega
      clear hlt
      induction es with
      | nil => rfl
      | cons q rest ihs =>
        obtain ⟨k, v⟩ := q
        rw [plainPairs, Bool.and_eq_true, Bool.and_eq_true] at hpl
        rw [okPairs, Bool.and_eq_true, Bool.and_eq_true]
        have hk : sizeOf k < n := by
          have h1 := List.cons.sizeOf_spec (k, v) rest
          have h2 := Prod.mk.sizeOf_spec k v
          omega
        have hv : sizeOf v < n := by
          have h1 := List.cons.sizeOf_spec (k, v) rest
          have h2 := Prod.mk.sizeOf_spec k v
          omega
        have hrest : sizeOf rest < n := by
          have h1 := List.cons.sizeOf_spec (k, v) rest
          omega
        exact ⟨⟨ih k hk hpl.1.1, ih v hv hpl.1.2⟩, ihs hpl.2 hrest⟩

theorem plain_okVal (v : PyVal) (hpl : plainVal v = true) : okVal v = true :=
  plain_okVal_bounded (sizeOf v + 1) v (by omega) hpl

/-- Hashability of an encoded form: the dict comprehension of
`dehydrate_json` rehashes every dehydrated key when it inserts it into
the rebuilt dict, and an encoded list (from a `list`/`set`/`tuple` key)
or dict (from a `dict`/dataclass key) is unhashable — Python raises
`TypeError: unhashable type` at that insertion. -/
def JVal.unhashable : JVal → Bool
  | .jList _ => true
  | .jDict _ => true
  | _ => false

namespace Graph

/-- A node in the Python object graph.  Cycle detection in
`dehydrate_json` is based on object identity (`id(value)`), which a tree
embedding cannot express, so cyclic values are modelled as a heap of
numbered objects: composites hold the ids of their children. -/
inductive Node where
  | nNone : Node
  | nBool (b : Bool) : Node
  | nInt (n : Int) : Node
  | nStr (s : String) : Node
  | nList (elems : List Nat) : Node
  | nDict (entries : List (Nat × Nat)) : Node
  | nRecord (cls : String) (fields : List (String × Nat)) : Node
  | nOpaque (cls : String) : Node
deriving Repr, DecidableEq

/-- The object heap: object id to node. -/
abbrev Heap := List (Nat × Node)

/-- Errors of graph-level dehydration.  `fuelOut` is an artifact of the
fuel parameter, shown unreachable at fuel `h.length + 1` on well-formed
heaps. -/
inductive DehydrateErr where
  | fuelOut : DehydrateErr
  | circular (i : Nat) : DehydrateErr
  | dangling (i : Nat) : DehydrateErr
  | unserializable (i : Nat) : DehydrateErr
  | unhashableKey (i : Nat) : DehydrateErr
deriving Repr, DecidableEq

/-- The object ids a node refers to directly. -/
def Node.children : Node → List Nat
  | .nList elems => elems
  | .nDict entries => entries.foldr (fun p acc => p.1 :: p.2 :: acc) []
  | .nRecord _ fields => fields.map Prod.snd
  | _ => []

/-- Embeds `drafter/history.py` `dehydrate_json` on the object graph,
including the `seen` set of the source: `seen` is copied per call and the
current object's id is added before recursing into children, so `seen`
holds exactly the identities of the composite values on the current
encoding path, and re-encountering one raises the circular-reference
`ValueError` before anything else (the check precedes every isinstance
branch).  The dict branch is the comprehension
`{dehydrate_json(k, seen): dehydrate_json(v, seen) for k, v in ...}`:
per entry the key is dehydrated, then the value, and then the insertion
rehashes the dehydrated key — a `TypeError: unhashable type` when the
encoded key is a list or dict (`unhashableKey`, tagged with the id of
the dict being rebuilt).  `fuel` bounds the recursion depth for Lean's
sake only. -/
def dehydrate (h : Heap) : Nat → Nat → List Nat → Except DehydrateErr JVal
  | 0, _, _ => .error .fuelOut
  | fuel + 1, i, seen =>
    if i ∈ seen then .error (.circular i)
    else
      match alistLookup h i with
      | none => .error (.dangling i)
      | some (.nList elems) =>
        (mapE (fun e => dehydrate h fuel e (i :: seen)) elems).map .jList
      | some (.nDict entries) =>
        (mapE (fun p => do
          let k ← dehydrate h fuel p.1 (i :: seen)
          let v ← dehydrate h fuel p.2 (i :: seen)
          if k.unhashable then Except.error (.unhashableKey i) else pure (k, v))
          entries).map .jDict
      | some (.nInt n) => .ok (.jInt n)
      | some (.nStr s) => .ok (.jStr s)
      | some (.nBool b) => .ok (.jBool b)
      | some .nNone => .ok .jNull
      | some (.nRecord _ fields) =>
        (mapE (fun f => do
          let v ← dehydrate h fuel f.2 (i :: seen)
          pure (JVal.jStr f.1, v)) fields).map .jDict
      | some (.nOpaque cls) => .error (.unserializable i)

/-- One containment step in the object graph. -/
def stepB (h : Heap) (a b : Nat) : Bool :=
  match alistLookup h a with
  | some nd => nd.children.contains b
  | none => false

/-- A containment path starting at `a` and visiting the listed ids in
order. -/
def pathFromB (h : Heap) : Nat → List Nat → Bool
  | _, [] => true
  | a, b :: rest => stepB h a b && pathFromB h b rest

/-- A value is self-referential when some containment path starting at it
revisits an id. -/
def SelfRef (h : Heap) (r : Nat) : Prop :=
  ∃ l, pathFromB h r l = true ∧ ¬ (r :: l).Nodup

/-- Heap well-formedness: object ids are unique, every child reference
resolves, and every node is of a kind the codec recognises. -/
def wfHeap (h : Heap) : Bool :=
  allDistinct (h.map Prod.fst) &&
  h.all (fun p =>
    match p.2 with
    | .nOpaque _ => false
    | nd => nd.children.all (fun c => (h.map Prod.fst).contains c))

theorem children_dict_mem :
    ∀ (entries : List (Nat × Nat)) (p : Nat × Nat), p ∈ entries →
      p.1 ∈ (Node.nDict entries).children ∧ p.2 ∈ (Node.nDict entries).children := by
  intro entries
  induction entries with
  | nil => intro p hp; cases hp
  | cons q rest ih =>
    intro p hp
    rcases List.mem_cons.mp hp with rfl | hp'
    · simp [Node.children]
    · have := ih p hp'
      simp only [Node.children, List.foldr_cons] at this ⊢
      exact ⟨List.mem_cons_of_mem _ (List.mem_cons_of_mem _ this.1),
        List.mem_cons_of_mem _ (List.mem_cons_of_mem _ this.2)⟩

theorem children_dict_elim :
    ∀ (entries : List (Nat × Nat)) (b : Nat), b ∈ (Node.nDict entries).children →
      ∃ p ∈ entries, b = p.1 ∨ b = p.2 := by
  intro entries
  induction entries with
  | nil => intro b hb; cases hb
  | cons q rest ih =>
    intro b hb
    simp only [Node.children, List.foldr_cons] at hb
    rcases List.mem_cons.mp hb with rfl | hb'
    · exact ⟨q, by simp, .inl rfl⟩
    · rcases List.mem_cons.mp hb' with rfl | hb''
      · exact ⟨q, by simp, .inr rfl⟩
      · obtain ⟨p, hp, hor⟩ := ih b hb''
        exact ⟨p, by simp [hp], hor⟩

theorem nodup_subset_length {l₁ l₂ : List Nat} (h₁ : l₁.Nodup)
    (hsub : ∀ x ∈ l₁, x ∈ l₂) : l₁.length ≤ l₂.length := by
  calc l₁.length = l₁.toFinset.card := (List.toFinset_card_of_nodup h₁).symm
    _ ≤ l₂.toFinset.card := Finset.card_le_card (fun x hx => by
        rw [List.mem_toFinset] at hx ⊢
        exact hsub x hx)
    _ ≤ l₂.length := List.toFinset_card_le l₂

theorem dehydrate_seen_eq (h : Heap) (fuel i : Nat) (seen : List Nat)
    (hmem : i ∈ seen) : dehydrate h (fuel + 1) i seen = .error (.circular i) := by
  rw [dehydrate, if_pos hmem]

theorem dehydrate_dangling_eq (h : Heap) (fuel i : Nat) (seen : List Nat)
    (hns : i ∉ seen) (hlk : alistLookup h i = none) :
    dehydrate h (fuel + 1) i seen = .error (.dangling i) := by
  rw [dehydrate, if_neg hns, hlk]

/-- The branch `dehydrate` takes once the current id has passed the seen
check and resolved to a node; a device for stating its equations. -/
def nodeResult (h : Heap) (fuel i : Nat) (seen : List Nat) : Node → Except DehydrateErr JVal
  | .nList elems => (mapE (fun e => dehydrate h fuel e (i :: seen)) elems).map .jList
  | .nDict entries =>
    (mapE (fun p => do
      let k ← dehydrate h fuel p.1 (i :: seen)
      let v ← dehydrate h fuel p.2 (i :: seen)
      if k.unhashable then Except.error (.unhashableKey i) else pure (k, v))
      entries).map .jDict
  | .nInt n => .ok (.jInt n)
  | .nStr s => .ok (.jStr s)
  | .nBool b => .ok (.jBool b)
  | .nNone => .ok .jNull
  | .nRecord _ fields =>
    (mapE (fun f => do
      let v ← dehydrate h fuel f.2 (i :: seen)
      pure (JVal.jStr f.1, v)) fields).map .jDict
  | .nOpaque _ => .error (.unserializable i)

theorem dehydrate_prim_eq (h : Heap) (fuel i : Nat) (seen : List Nat) (nd : Node)
    (hns : i ∉ seen) (hlk : alistLookup h i = some nd) :
    dehydrate h (fuel + 1) i seen = nodeResult h fuel i seen nd := by
  cases nd <;> (rw [dehydrate, if_neg hns, hlk]; rfl)

theorem children_ok (h : Heap) (fuel i : Nat) (seen : List Nat) (nd : Node) (j : JVal)
    (hns : i ∉ seen) (hlk : alistLookup h i = some nd)
    (hok : dehydrate h (fuel + 1) i seen = .ok j) :
    ∀ b ∈ nd.children, ∃ jb, dehydrate h fuel b (i :: seen) = .ok jb := by
  rw [dehydrate_prim_eq h fuel i seen nd hns hlk] at hok
  cases nd with
  | nNone => intro b hb; cases hb
  | nBool b' => intro b hb; cases hb
  | nInt n' => intro b hb; cases hb
  | nStr s' => intro b hb; cases hb
  | nOpaque cls => rw [nodeResult] at hok; cases hok
  | nList elems =>
    intro b hb
    rw [nodeResult] at hok
    rcases hmap : mapE (fun e => dehydrate h fuel e (i :: seen)) elems with e | ys
    · rw [hmap] at hok; cases hok
    · exact mapE_ok_forall _ elems ys hmap b hb
  | nDict entries =>
    intro b hb
    rw [nodeResult] at hok
    rcases hmap : mapE (fun p => do
        let k ← dehydrate h fuel p.1 (i :: seen)
        let v ← dehydrate h fuel p.2 (i :: seen)
        if k.unhashable then Except.error (.unhashableKey i) else pure (k, v))
        entries with e | ys
    · rw [hmap] at hok; cases hok
    · obtain ⟨p, hp, hor⟩ := children_dict_elim entries b hb
      obtain ⟨y, hy⟩ := mapE_ok_forall _ entries ys hmap p hp
      rcases hk : dehydrate h fuel p.1 (i :: seen) with e | jk
      · rw [hk] at hy
        cases hy
      · rcases hv : dehydrate h fuel p.2 (i :: seen) with e | jv
        · rw [hk, hv] at hy
          cases hy
        · rcases hor with rfl | rfl
          · exact ⟨jk, hk⟩
          · exact ⟨jv, hv⟩
  | nRecord cls fields =>
    intro b hb
    rw [nodeResult] at hok
    rcases hmap : mapE (fun f => do
        let v ← dehydrate h fuel f.2 (i :: seen)
        pure (JVal.jStr f.1, v)) fields with e | ys
    · rw [hmap] at hok; cases hok
    · obtain ⟨f, hf, hfb⟩ := List.mem_map.mp hb
      obtain ⟨y, hy⟩ := mapE_ok_forall _ fields ys hmap f hf
      rcases hv : dehydrate h fuel f.2 (i :: seen) with e | jv
      · rw [hv] at hy
        cases hy
      · rw [← hfb]
        exact ⟨jv, hv⟩

theorem dehydrate_ok_path (h : Heap) :
    ∀ fuel r seen j, dehydrate h fuel r seen = .ok j →
      ∀ l, pathFromB h r l = true → (r :: l).Nodup ∧ ∀ x ∈ r :: l, x ∉ seen := by
  intro fuel
  induction fuel with
  | zero => intro r seen j hok; rw [dehydrate] at hok; cases hok
  | succ n ih =>
    intro r seen j hok l hpath
    have hns : r ∉ seen := by
      intro hmem
      rw [dehydrate_seen_eq h n r seen hmem] at hok
      cases hok
    rcases hl : alistLookup h r with - | nd
    · rw [dehydrate_dangling_eq h n r seen hns hl] at hok
      cases hok
    · cases l with
      | nil =>
        refine ⟨List.nodup_singleton r, ?_⟩
        intro x hx
        rw [List.mem_singleton] at hx
        subst hx
        exact hns
      | cons b rest =>
        rw [pathFromB, Bool.and_eq_true] at hpath
        obtain ⟨hstep, hrest⟩ := hpath
        rw [stepB, hl] at hstep
        have hb : b ∈ nd.children := by
          obtain ⟨b', hb', hbeq⟩ := List.contains_iff_exists_mem_beq.mp hstep
          obtain rfl : b = b' := by simpa using hbeq
          exact hb'
        obtain ⟨jb, hokb⟩ := children_ok h n r seen nd j hns hl hok b hb
        obtain ⟨hnd2, hnin2⟩ := ih b (r :: seen) jb hokb rest hrest
        constructor
        · rw [List.nodup_cons]
          refine ⟨?_, hnd2⟩
          intro hr
          exact hnin2 r hr (by simp)
        · intro x hx
          rcases List.mem_cons.mp hx with rfl | hx'
          · exact hns
          · intro hxs
            exact hnin2 x hx' (by simp [hxs])

theorem dehydrate_total (h : Heap) (hw : wfHeap h = true) :
    ∀ fuel i seen, i ∈ h.map Prod.fst → seen.Nodup →
      (∀ x ∈ seen, x ∈ h.map Prod.fst) →
      h.length + 1 ≤ fuel + seen.length →
      (∃ j, dehydrate h fuel i seen = .ok j) ∨
        (∃ c, dehydrate h fuel i seen = .error (.circular c)) ∨
        (∃ u, dehydrate h fuel i seen = .error (.unhashableKey u)) := by
  rw [wfHeap, Bool.and_eq_true] at hw
  obtain ⟨hdist, hall⟩ := hw
  rw [List.all_eq_true] at hall
  intro fuel
  induction fuel with
  | zero =>
    intro i seen hi hnd hsub hfuel
    exfalso
    have := nodup_subset_length hnd hsub
    rw [List.length_map] at this
    omega
  | succ n ih =>
    intro i seen hi hnd hsub hfuel
    by_cases hmem : i ∈ seen
    · exact .inr (.inl ⟨i, dehydrate_seen_eq h n i seen hmem⟩)
    · obtain ⟨nd, hlk⟩ := alistLookup_some_of_mem_ids h i hi
      have hpair := alistLookup_mem h i nd hlk
      have hwf := hall (i, nd) hpair
      have heqn := dehydrate_prim_eq h n i seen nd hmem hlk
      have hchild : ∀ b ∈ nd.children, b ∈ h.map Prod.fst := by
        intro b hb
        have hbc : (nd.children.all (fun c => (h.map Prod.fst).contains c)) = true := by
          cases nd with
          | nOpaque cls => cases hwf
          | nNone => exact hwf
          | nBool b' => exact hwf
          | nInt n' => exact hwf
          | nStr s' => exact hwf
          | nList elems => exact hwf
          | nDict entries => exact hwf
          | nRecord cls fields => exact hwf
        rw [List.all_eq_true] at hbc
        obtain ⟨b', hb', hbeq⟩ := List.contains_iff_exists_mem_beq.mp (hbc b hb)
        obtain rfl : b = b' := by simpa using hbeq
        exact hb'
      have hrec : ∀ b ∈ nd.children,
          (∃ j, dehydrate h n b (i :: seen) = .ok j) ∨
            (∃ c, dehydrate h n b (i :: seen) = .error (.circular c)) ∨
            (∃ u, dehydrate h n b (i :: seen) = .error (.unhashableKey u)) := by
        intro b hb
        refine ih b (i :: seen) (hchild b hb) ?_ ?_ ?_
        · rw [List.nodup_cons]; exact ⟨hmem, hnd⟩
        · intro x hx
          rcases List.mem_cons.mp hx with rfl | hx'
          · exact hi
          · exact hsub x hx'
        · simp only [List.length_cons]
          omega
      cases nd with
      | nOpaque cls => cases hwf
      | nNone => exact .inl ⟨.jNull, by rw [heqn, nodeResult]⟩
      | nBool b' => exact .inl ⟨.jBool b', by rw [heqn, nodeResult]⟩
      | nInt n' => exact .inl ⟨.jInt n', by rw [heqn, nodeResult]⟩
      | nStr s' => exact .inl ⟨.jStr s', by rw [heqn, nodeResult]⟩
      | nList elems =>
        rcases mapE_cases (fun e => dehydrate h n e (i :: seen)) elems with
          ⟨ys, hys⟩ | ⟨x, hx, e, hfx, hmap⟩
        · exact .inl ⟨.jList ys, by rw [heqn, nodeResult, hys]; rfl⟩
        · rcases hrec x hx with ⟨j, hj⟩ | ⟨c, hc⟩ | ⟨u, hu⟩
          · rw [hj] at hfx; cases hfx
          · rw [hc] at hfx
            obtain rfl : DehydrateErr.circular c = e := by
              injection hfx
            exact .inr (.inl ⟨c, by rw [heqn, nodeResult, hmap]; rfl⟩)
          · rw [hu] at hfx
            obtain rfl : DehydrateErr.unhashableKey u = e := by
              injection hfx
            exact .inr (.inr ⟨u, by rw [heqn, nodeResult, hmap]; rfl⟩)
      | nDict entries =>
        rcases mapE_cases (fun p => do
            let k ← dehydrate h n p.1 (i :: seen)
            let v ← dehydrate h n p.2 (i :: seen)
            if k.unhashable then Except.error (.unhashableKey i) else pure (k, v))
            entries with ⟨ys, hys⟩ | ⟨p, hp, e, hfp, hmap⟩
        · exact .inl ⟨.jDict ys, by rw [heqn, nodeResult, hys]; rfl⟩
        · have hc12 := children_dict_mem entries p hp
          rcases hrec p.1 hc12.1 with ⟨jk, hjk⟩ | ⟨c, hck⟩ | ⟨u, huk⟩
          · rcases hrec p.2 hc12.2 with ⟨jv, hjv⟩ | ⟨c, hcv⟩ | ⟨u, huv⟩
            · rw [hjk, hjv] at hfp
              by_cases hunh : jk.unhashable = true
              · have hfp2 : (if jk.unhashable then
                      Except.error (DehydrateErr.unhashableKey i)
                    else Except.ok (jk, jv)) = Except.error e := hfp
                rw [if_pos hunh] at hfp2
                obtain rfl : DehydrateErr.unhashableKey i = e := by
                  injection hfp2
                exact .inr (.inr ⟨i, by rw [heqn, nodeResult, hmap]; rfl⟩)
              · have hfp2 : (if jk.unhashable then
                      Except.error (DehydrateErr.unhashableKey i)
                    else Except.ok (jk, jv)) = Except.error e := hfp
                rw [if_neg hunh] at hfp2
                cases hfp2
            · rw [hjk, hcv] at hfp
              obtain rfl : DehydrateErr.circular c = e := by
                injection hfp
              exact .inr (.inl ⟨c, by rw [heqn, nodeResult, hmap]; rfl⟩)
            · rw [hjk, huv] at hfp
              obtain rfl : DehydrateErr.unhashableKey u = e := by
                injection hfp
              exact .inr (.inr ⟨u, by rw [heqn, nodeResult, hmap]; rfl⟩)
          · rw [hck] at hfp
            obtain rfl : DehydrateErr.circular c = e := by
              injection hfp
            exact .inr (.inl ⟨c, by rw [heqn, nodeResult, hmap]; rfl⟩)
          · rw [huk] at hfp
            obtain rfl : DehydrateErr.unhashableKey u = e := by
              injection hfp
            exact .inr (.inr ⟨u, by rw [heqn, nodeResult, hmap]; rfl⟩)
      | nRecord cls fields =>
        rcases mapE_cases (fun f => do
            let v ← dehydrate h n f.2 (i :: seen)
            pure (JVal.jStr f.1, v)) fields with ⟨ys, hys⟩ | ⟨f, hf, e, hff, hmap⟩
        · exact .inl ⟨.jDict ys, by rw [heqn, nodeResult, hys]; rfl⟩
        · have hcf : f.2 ∈ (Node.nRecord cls fields).children :=
            List.mem_map.mpr ⟨f, hf, rfl⟩
          rcases hrec f.2 hcf with ⟨jv, hjv⟩ | ⟨c, hcv⟩ | ⟨u, huv⟩
          · rw [hjv] at hff
            cases hff
          · rw [hcv] at hff
            obtain rfl : DehydrateErr.circular c = e := by
              injection hff
            exact .inr (.inl ⟨c, by rw [heqn, nodeResult, hmap]; rfl⟩)
          · rw [huv] at hff
            obtain rfl : DehydrateErr.unhashableKey u = e := by
              injection hff
            exact .inr (.inr ⟨u, by rw [heqn, nodeResult, hmap]; rfl⟩)

/-- The node at an id is not a composite (list, dict or record), so its
encoded form is hashable. -/
def primNodeAt (h : Heap) (b : Nat) : Bool :=
  match alistLookup h b with
  | some (.nList _) => false
  | some (.nDict _) => false
  | some (.nRecord _ _) => false
  | _ => true

/-- Every dict node of the heap has only non-composite keys: no rebuilt
dict ever rehashes an unhashable encoded key. -/
def primKeys (h : Heap) : Bool :=
  h.all (fun p =>
    match p.2 with
    | .nDict entries => entries.all (fun q => primNodeAt h q.1)
    | _ => true)

theorem dehydrate_ok_not_unhash (h : Heap) (fuel b : Nat) (s : List Nat) (jb : JVal)
    (hprim : primNodeAt h b = true) (hok : dehydrate h fuel b s = .ok jb) :
    jb.unhashable = false := by
  cases fuel with
  | zero => rw [dehydrate] at hok; cases hok
  | succ n =>
    by_cases hmem : b ∈ s
    · rw [dehydrate_seen_eq h n b s hmem] at hok; cases hok
    · rcases hlk : alistLookup h b with - | nd
      · rw [dehydrate_dangling_eq h n b s hmem hlk] at hok; cases hok
      · rw [dehydrate_prim_eq h n b s nd hmem hlk] at hok
        simp only [primNodeAt, hlk] at hprim
        cases nd with
        | nNone => rw [nodeResult] at hok; cases hok; rfl
        | nBool b' => rw [nodeResult] at hok; cases hok; rfl
        | nInt n' => rw [nodeResult] at hok; cases hok; rfl
        | nStr s' => rw [nodeResult] at hok; cases hok; rfl
        | nOpaque cls => rw [nodeResult] at hok; cases hok
        | nList elems => cases hprim
        | nDict entries => cases hprim
        | nRecord cls fields => cases hprim

theorem dehydrate_no_unhash (h : Heap) (hpk : primKeys h = true) :
    ∀ fuel i seen u, dehydrate h fuel i seen ≠ .error (.unhashableKey u) := by
  rw [primKeys, List.all_eq_true] at hpk
  intro fuel
  induction fuel with
  | zero =>
    intro i seen u hc
    rw [dehydrate] at hc
    injection hc with hh
    cases hh
  | succ n ih =>
    intro i seen u hc
    by_cases hmem : i ∈ seen
    · rw [dehydrate_seen_eq h n i seen hmem] at hc
      injection hc with hh
      cases hh
    · rcases hlk : alistLookup h i with - | nd
      · rw [dehydrate_dangling_eq h n i seen hmem hlk] at hc
        injection hc with hh
        cases hh
      · rw [dehydrate_prim_eq h n i seen nd hmem hlk] at hc
        cases nd with
        | nNone => rw [nodeResult] at hc; cases hc
        | nBool b' => rw [nodeResult] at hc; cases hc
        | nInt n' => rw [nodeResult] at hc; cases hc
        | nStr s' => rw [nodeResult] at hc; cases hc
        | nOpaque cls =>
          rw [nodeResult] at hc
          injection hc with hh
          cases hh
        | nList elems =>
          rw [nodeResult] at hc
          rcases mapE_cases (fun e => dehydrate h n e (i :: seen)) elems with
            ⟨ys, hys⟩ | ⟨x, hx, e', hfx, hmap'⟩
          · rw [hys] at hc
            have hc2 : (Except.ok (JVal.jList ys) : Except DehydrateErr JVal) =
                .error (.unhashableKey u) := hc
            cases hc2
          · rw [hmap'] at hc
            have hc2 : (Except.error e' : Except DehydrateErr JVal) =
                .error (.unhashableKey u) := hc
            obtain rfl : e' = DehydrateErr.unhashableKey u := by
              injection hc2 with hh
            exact ih x (i :: seen) u hfx
        | nRecord cls fields =>
          rw [nodeResult] at hc
          rcases mapE_cases (fun f => do
              let v ← dehydrate h n f.2 (i :: seen)
              pure (JVal.jStr f.1, v)) fields with ⟨ys, hys⟩ | ⟨f, hf, e', hff, hmap'⟩
          · rw [hys] at hc
            have hc2 : (Except.ok (JVal.jDict ys) : Except DehydrateErr JVal) =
                .error (.unhashableKey u) := hc
            cases hc2
          · rw [hmap'] at hc
            have hc2 : (Except.error e' : Except DehydrateErr JVal) =
                .error (.unhashableKey u) := hc
            obtain rfl : e' = DehydrateErr.unhashableKey u := by
              injection hc2 with hh
            rcases hv : dehydrate h n f.2 (i :: seen) with ev | jv
            · rw [hv] at hff
              have hff2 : (Except.error ev : Except DehydrateErr (JVal × JVal)) =
                  .error (.unhashableKey u) := hff
              obtain rfl : ev = DehydrateErr.unhashableKey u := by
                injection hff2 with hh
              exact ih f.2 (i :: seen) u hv
            · rw [hv] at hff
              have hff2 : (Except.ok (JVal.jStr f.1, jv) :
                  Except DehydrateErr (JVal × JVal)) = .error (.unhashableKey u) := hff
              cases hff2
        | nDict entries =>
          rw [nodeResult] at hc
          rcases mapE_cases (fun p => do
              let k ← dehydrate h n p.1 (i :: seen)
              let v ← dehydrate h n p.2 (i :: seen)
              if k.unhashable then Except.error (.unhashableKey i) else pure (k, v))
              entries with ⟨ys, hys⟩ | ⟨p, hp, e', hfp, hmap'⟩
          · rw [hys] at hc
            have hc2 : (Except.ok (JVal.jDict ys) : Except DehydrateErr JVal) =
                .error (.unhashableKey u) := hc
            cases hc2
          · rw [hmap'] at hc
            have hc2 : (Except.error e' : Except DehydrateErr JVal) =
                .error (.unhashableKey u) := hc
            obtain rfl : e' = DehydrateErr.unhashableKey u := by
              injection hc2 with hh
            rcases hk : dehydrate h n p.1 (i :: seen) with ek | jk
            · rw [hk] at hfp
              have hfp2 : (Except.error ek : Except DehydrateErr (JVal × JVal)) =
                  .error (.unhashableKey u) := hfp
              obtain rfl : ek = DehydrateErr.unhashableKey u := by
                injection hfp2 with hh
              exact ih p.1 (i :: seen) u hk
            · rcases hv : dehydrate h n p.2 (i :: seen) with ev | jv
              · rw [hk, hv] at hfp
                have hfp2 : (Except.error ev : Except DehydrateErr (JVal × JVal)) =
                    .error (.unhashableKey u) := hfp
                obtain rfl : ev = DehydrateErr.unhashableKey u := by
                  injection hfp2 with hh
                exact ih p.2 (i :: seen) u hv
              · rw [hk, hv] at hfp
                have hfp2 : (if jk.unhashable then
                      Except.error (DehydrateErr.unhashableKey i)
                    else Except.ok (jk, jv)) = Except.error (.unhashableKey u) := hfp
                have hpn : primNodeAt h p.1 = true := by
                  have h2 : entries.all (fun q => primNodeAt h q.1) = true :=
                    hpk (i, .nDict entries) (alistLookup_mem h i _ hlk)
                  exact List.all_eq_true.mp h2 p hp
                have hnu : jk.unhashable = false :=
                  dehydrate_ok_not_unhash h n p.1 (i :: seen) jk hpn hk
                rw [if_neg (by simp [hnu])] at hfp2
                cases hfp2

end Graph

/-- C5: encoding a self-referential composite value always terminates and
always fails — never a success — but not always with the
circular-reference `ValueError` the claim asserts: on a well-formed
object heap with recursion budget `|heap| + 1` (so the fuel bound is
never hit), a self-referential value yields either the circular-reference
error or the `TypeError: unhashable type` that the dict comprehension
raises when a dict rebuilt along the way rehashes an encoded composite
key (a tuple or frozen-dataclass key, whose encoded form is a list or
dict) before the cycle is reached.  When every dict key in the heap is
non-composite, the error is exactly the circular-reference one. -/
theorem C5_cycle_rejection (h : Graph.Heap) (r : Nat)
    (hw : Graph.wfHeap h = true) (hr : r ∈ h.map Prod.fst)
    (hsr : Graph.SelfRef h r) :
    ((∃ c, Graph.dehydrate h (h.length + 1) r [] = .error (.circular c)) ∨
      (∃ u, Graph.dehydrate h (h.length + 1) r [] = .error (.unhashableKey u))) ∧
    (Graph.primKeys h = true →
      ∃ c, Graph.dehydrate h (h.length + 1) r [] = .error (.circular c)) := by
  have hdisj :
      (∃ c, Graph.dehydrate h (h.length + 1) r [] = .error (.circular c)) ∨
        (∃ u, Graph.dehydrate h (h.length + 1) r [] = .error (.unhashableKey u)) := by
    rcases Graph.dehydrate_total h hw (h.length + 1) r [] hr List.nodup_nil
        (fun x hx => by cases hx) (by simp) with ⟨j, hj⟩ | hcirc | hunh
    · exfalso
      obtain ⟨l, hl, hnd⟩ := hsr
      exact hnd (Graph.dehydrate_ok_path h (h.length + 1) r [] j hj l hl).1
    · exact .inl hcirc
    · exact .inr hunh
  refine ⟨hdisj, ?_⟩
  intro hpk
  rcases hdisj with hcirc | ⟨u, hu⟩
  · exact hcirc
  · exact absurd hu (Graph.dehydrate_no_unhash h hpk (h.length + 1) r [] u)

/-- Witness for C5: the one-object heap where object 0 is a list holding
itself (`x = []; x.append(x)`): its keys are trivially primitive, and
encoding yields the circular-reference error. -/
theorem C5_cycle_rejection_witness :
    Graph.wfHeap [(0, .nList [0])] = true ∧
    (0 ∈ ([(0, Graph.Node.nList [0])] : Graph.Heap).map Prod.fst) ∧
    (((∃ c, Graph.dehydrate [(0, Graph.Node.nList [0])] 2 0 [] =
        .error (.circular c)) ∨
      (∃ u, Graph.dehydrate [(0, Graph.Node.nList [0])] 2 0 [] =
        .error (.unhashableKey u))) ∧
    (Graph.primKeys [(0, Graph.Node.nList [0])] = true →
      ∃ c, Graph.dehydrate [(0, Graph.Node.nList [0])] 2 0 [] =
        .error (.circular c))) :=
  ⟨by decide, by decide,
    C5_cycle_rejection [(0, .nList [0])] 0 (by decide) (by decide)
      ⟨[0], by decide, by decide⟩⟩

/-- Counterexample to C5 as stated: the self-referential dict
`d = {(1, 2): 0, "self": d}` — object 0 the dict, object 1 the tuple
key (encoded as a list), objects 2-5 primitives.  Encoding terminates but
raises the dict comprehension's `TypeError: unhashable type` while
rebuilding object 0's first entry, before the cycle is ever reached — not
the circular-reference `ValueError` the claim promises for every
self-referential value. -/
theorem C5_cycle_rejection_counterexample :
    Graph.wfHeap [(0, Graph.Node.nDict [(1, 2), (3, 0)]), (1, Graph.Node.nList [4, 5]),
      (2, Graph.Node.nInt 0), (3, Graph.Node.nStr "self"), (4, Graph.Node.nInt 1),
      (5, Graph.Node.nInt 2)] = true ∧
    Graph.SelfRef [(0, Graph.Node.nDict [(1, 2), (3, 0)]), (1, Graph.Node.nList [4, 5]),
      (2, Graph.Node.nInt 0), (3, Graph.Node.nStr "self"), (4, Graph.Node.nInt 1),
      (5, Graph.Node.nInt 2)] 0 ∧
    Graph.dehydrate [(0, Graph.Node.nDict [(1, 2), (3, 0)]), (1, Graph.Node.nList [4, 5]),
      (2, Graph.Node.nInt 0), (3, Graph.Node.nStr "self"), (4, Graph.Node.nInt 1),
      (5, Graph.Node.nInt 2)] 7 0 [] = .error (.unhashableKey 0) ∧
    ∀ c, Graph.dehydrate [(0, Graph.Node.nDict [(1, 2), (3, 0)]),
      (1, Graph.Node.nList [4, 5]), (2, Graph.Node.nInt 0), (3, Graph.Node.nStr "self"),
      (4, Graph.Node.nInt 1), (5, Graph.Node.nInt 2)] 7 0 [] ≠
        .error (.circular c) := by
  refine ⟨by decide, ⟨[0], by decide, by decide⟩, rfl, ?_⟩
  intro c hcontra
  have h3 : Graph.dehydrate [(0, Graph.Node.nDict [(1, 2), (3, 0)]),
      (1, Graph.Node.nList [4, 5]), (2, Graph.Node.nInt 0), (3, Graph.Node.nStr "self"),
      (4, Graph.Node.nInt 1), (5, Graph.Node.nInt 2)] 7 0 [] =
      .error (.unhashableKey 0) := rfl
  rw [h3] at hcontra
  injection hcontra with hh
  cases hh

/-- Python dict assignment `d[k] = v` on an insertion-ordered association
list: an existing key keeps its position and gets the new value, a new key
is appended. -/
def dictSet {β : Type} (d : List (String × β)) (k : String) (v : β) : List (String × β) :=
  if (d.map Prod.fst).contains k then
    d.map (fun p => if p.1 = k then (k, v) else p)
  else d ++ [(k, v)]

/-- Python `d.update(u)`: every key/value pair of `u` is assigned into
`d`, in order. -/
def dictUpdate {β : Type} (d u : List (String × β)) : List (String × β) :=
  u.foldl (fun acc p => dictSet acc p.1 p.2) d

/-- Embeds the input-merging step of `render_route`
(`drafter/server.py`): the decoded keyword arguments are updated with the
decoded client-supplied `<input>` values, `py_kwargs.update(json.loads(
base64.b64decode(inputs)))`.  Transport decoding (base64/JSON) is outside
this step; the merge receives the already-decoded dicts. -/
def render_route_merge (kwargs inputs : List (String × JVal)) : List (String × JVal) :=
  dictUpdate kwargs inputs

theorem alistLookup_append_single {β : Type} :
    ∀ (d : List (String × β)) (k : String) (v : β), (∀ p ∈ d, p.1 ≠ k) →
      alistLookup (d ++ [(k, v)]) k = some v := by
  intro d
  induction d with
  | nil => intro k v _; rw [List.nil_append, alistLookup, if_pos rfl]
  | cons p rest ih =>
    intro k v hnm
    rw [List.cons_append, alistLookup, if_neg (hnm p (by simp))]
    exact ih k v (fun q hq => hnm q (by simp [hq]))

theorem alistLookup_replace_self {β : Type} :
    ∀ (d : List (String × β)) (k : String) (v : β), k ∈ d.map Prod.fst →
      alistLookup (d.map (fun p => if p.1 = k then (k, v) else p)) k = some v := by
  intro d
  induction d with
  | nil => intro k v hk; cases hk
  | cons p rest ih =>
    intro k v hk
    rw [List.map_cons]
    by_cases hp : p.1 = k
    · rw [if_pos hp, alistLookup, if_pos rfl]
    · rw [if_neg hp, alistLookup, if_neg hp]
      rw [List.map_cons, List.mem_cons] at hk
      rcases hk with heq | hk'
      · exact absurd heq.symm hp
      · exact ih k v hk'

theorem alistLookup_dictSet_self {β : Type} (d : List (String × β)) (k : String) (v : β) :
    alistLookup (dictSet d k v) k = some v := by
  rw [dictSet]
  by_cases hc : (d.map Prod.fst).contains k = true
  · rw [if_pos hc]
    obtain ⟨k', hk', hbeq⟩ := List.contains_iff_exists_mem_beq.mp hc
    obtain rfl : k = k' := by simpa using hbeq
    exact alistLookup_replace_self d k v hk'
  · rw [if_neg hc]
    refine alistLookup_append_single d k v ?_
    intro p hp heq
    exact hc (List.contains_iff_exists_mem_beq.mpr
      ⟨p.1, List.mem_map.mpr ⟨p, hp, rfl⟩, by simp [heq]⟩)

theorem alistLookup_replace_other {β : Type} :
    ∀ (d : List (String × β)) (k k' : String) (v : β), k' ≠ k →
      alistLookup (d.map (fun p => if p.1 = k then (k, v) else p)) k' =
        alistLookup d k' := by
  intro d
  induction d with
  | nil => intro k k' v _; rfl
  | cons p rest ih =>
    intro k k' v hne
    rw [List.map_cons]
    by_cases hp : p.1 = k
    · rw [if_pos hp, alistLookup, alistLookup,
        if_neg (fun h => hne h.symm), if_neg (fun h => hne ((hp ▸ h : (k : String) = k')).symm)]
      exact ih k k' v hne
    · rw [if_neg hp, alistLookup, alistLookup]
      by_cases hp' : p.1 = k'
      · rw [if_pos hp', if_pos hp']
      · rw [if_neg hp', if_neg hp']
        exact ih k k' v hne

theorem alistLookup_append_single_other {β : Type} :
    ∀ (d : List (String × β)) (k k' : String) (v : β), k' ≠ k →
      alistLookup (d ++ [(k, v)]) k' = alistLookup d k' := by
  intro d
  induction d with
  | nil =>
    intro k k' v hne
    rw [List.nil_append]
    show (if k = k' then some v else alistLookup [] k') = alistLookup [] k'
    rw [if_neg (fun h => hne h.symm)]
  | cons p rest ih =>
    intro k k' v hne
    rw [List.cons_append, alistLookup, alistLookup]
    by_cases hp : p.1 = k'
    · rw [if_pos hp, if_pos hp]
    · rw [if_neg hp, if_neg hp]
      exact ih k k' v hne

theorem alistLookup_dictSet_other {β : Type} (d : List (String × β)) (k k' : String)
    (v : β) (hne : k' ≠ k) :
    alistLookup (dictSet d k v) k' = alistLookup d k' := by
  rw [dictSet]
  by_cases hc : (d.map Prod.fst).contains k = true
  · rw [if_pos hc]
    exact alistLookup_replace_other d k k' v hne
  · rw [if_neg hc]
    exact alistLookup_append_single_other d k k' v hne

theorem dictUpdate_lookup_not_mem {β : Type} :
    ∀ (u : List (String × β)) (d : List (String × β)) (k : String),
      k ∉ u.map Prod.fst →
      alistLookup (dictUpdate d u) k = alistLookup d k := by
  intro u
  induction u with
  | nil => intro d k _; rfl
  | cons p rest ih =>
    intro d k hk
    rw [List.map_cons, List.mem_cons] at hk
    push_neg at hk
    rw [dictUpdate, List.foldl_cons]
    have := ih (dictSet d p.1 p.2) k hk.2
    rw [dictUpdate] at this
    rw [this]
    exact alistLookup_dictSet_other d p.1 k p.2 hk.1

theorem dictUpdate_lookup_mem {β : Type} :
    ∀ (u : List (String × β)) (d : List (String × β)) (k : String) (v : β),
      (u.map Prod.fst).Nodup → (k, v) ∈ u →
      alistLookup (dictUpdate d u) k = some v := by
  intro u
  induction u with
  | nil => intro d k v _ hin; cases hin
  | cons p rest ih =>
    intro d k v hnd hin
    rw [List.map_cons, List.nodup_cons] at hnd
    rw [dictUpdate, List.foldl_cons]
    rcases List.mem_cons.mp hin with rfl | hin'
    · have := dictUpdate_lookup_not_mem rest (dictSet d k v) k hnd.1
      rw [dictUpdate] at this
      rw [this]
      exact alistLookup_dictSet_self d k v
    · exact ih (dictSet d p.1 p.2) k v hnd.2 hin'

/-- C2 (amended): when rendering a route, the decoded client-supplied
input values are merged into the keyword arguments by `dict.update`, so
for every key present in both dicts the value bound for the handler is
the input value — the inputs override the keyword arguments, the opposite
of the claimed priority. -/
theorem C2_input_merge (kwargs inputs : List (String × JVal)) (k : String) (v : JVal)
    (hnd : (inputs.map Prod.fst).Nodup) (hin : (k, v) ∈ inputs) :
    alistLookup (render_route_merge kwargs inputs) k = some v :=
  dictUpdate_lookup_mem inputs kwargs k v hnd hin

/-- Witness for C2: the key `"a"` is present in both dicts; the merged
binding carries the input value `2`. -/
theorem C2_input_merge_witness :
    ([("a", JVal.jInt 2)].map Prod.fst).Nodup ∧
    (("a", JVal.jInt 2) ∈ [("a", JVal.jInt 2)]) ∧
    alistLookup (render_route_merge [("a", .jInt 1)] [("a", .jInt 2)]) "a" =
      some (.jInt 2) :=
  ⟨by decide, List.mem_singleton.mpr rfl,
    C2_input_merge [("a", .jInt 1)] [("a", .jInt 2)] "a" (.jInt 2)
      (by decide) (List.mem_singleton.mpr rfl)⟩

/-- Counterexample to C2 as stated: the keyword arguments bind `"a" = 1`
and the inputs bind `"a" = 2`; the claim says the keyword-argument value
`1` must win, but `py_kwargs.update(inputs)` makes the input value `2`
win. -/
theorem C2_input_merge_counterexample :
    render_route_merge [("a", .jInt 1)] [("a", .jInt 2)] = [("a", .jInt 2)] ∧
    alistLookup (render_route_merge [("a", .jInt 1)] [("a", .jInt 2)]) "a" ≠
      some (.jInt 1) := by
  refine ⟨rfl, ?_⟩
  intro h
  have h2 : some (JVal.jInt 2) = some (JVal.jInt 1) := h
  injection h2 with h3
  injection h3 with h4
  exact absurd h4 (by decide)

/-- Embeds `Server.setup` (`drafter/server.py`): stores the initial state
and its serialised form (`self.dump_state()`, which can raise through
`dehydrate_json`), raises if no routes are registered, installs the
synthetic reset route (key slash + `--reset`) with a dict assignment, and, if
`'/'` is not a key, installs the first value of the route table under
`'/'` (`list(self.routes.values())[0]`, read after the reset
installation).  Handlers are abstract (`α`); the route table is the
insertion-ordered dict `routes`.  The `[]` match arm is unreachable
(`dictSet` never empties a table). -/
def Server.setup {α : Type} (routes : List (String × α)) (resetHandler : α)
    (initial_state : PyVal) : Except String (List (String × α)) :=
  match dehydrate_json initial_state with
  | .error _ => .error "Error while serializing state"
  | .ok _ =>
    if routes.isEmpty then
      .error "No routes have been defined.\nDid you remember the @route decorator?"
    else
      match dictSet routes "/--reset" resetHandler with
      | [] => .error "IndexError"
      | q :: tail =>
        if ((q :: tail).map Prod.fst).contains "/" then .ok (q :: tail)
        else .ok (dictSet (q :: tail) "/" q.2)

theorem mem_keys_dictSet {β : Type} (d : List (String × β)) (k k' : String) (v : β)
    (hne : k' ≠ k) :
    (k' ∈ (dictSet d k v).map Prod.fst) ↔ k' ∈ d.map Prod.fst := by
  rw [dictSet]
  by_cases hc : (d.map Prod.fst).contains k = true
  · rw [if_pos hc]
    clear hc
    induction d with
    | nil => simp
    | cons p rest ih =>
      by_cases hp : p.1 = k
      · simp only [List.map_cons, if_pos hp, List.mem_cons]
        rw [ih]
        constructor
        · rintro (h | h)
          · exact absurd h hne
          · exact .inr h
        · rintro (h | h)
          · exact absurd (hp ▸ h) hne
          · exact .inr h
      · simp only [List.map_cons, if_neg hp, List.mem_cons]
        rw [ih]
  · rw [if_neg hc]
    simp only [List.map_append, List.mem_append, List.map_cons, List.map_nil,
      List.mem_cons, List.not_mem_nil, or_false]
    constructor
    · rintro (h | h)
      · exact h
      · exact absurd h hne
    · exact .inl

theorem dictSet_head {β : Type} (p : String × β) (rest : List (String × β))
    (k : String) (v : β) :
    ∃ tail, dictSet (p :: rest) k v =
      (if p.1 = k then (k, v) else p) :: tail := by
  rw [dictSet]
  by_cases hc : ((p :: rest).map Prod.fst).contains k = true
  · rw [if_pos hc, List.map_cons]
    exact ⟨_, rfl⟩
  · rw [if_neg hc]
    have hp : p.1 ≠ k := by
      intro h
      exact hc (List.contains_iff_exists_mem_beq.mpr
        ⟨k, by rw [List.map_cons, ← h]; simp, by simp⟩)
    refine ⟨rest ++ [(k, v)], ?_⟩
    rw [if_neg hp, List.cons_append]

theorem setup_ok_char {α : Type} (routes : List (String × α)) (resetHandler : α)
    (st : PyVal) (j : JVal) (q : String × α) (tail : List (String × α))
    (hj : dehydrate_json st = .ok j) (hne : routes ≠ [])
    (hht : dictSet routes "/--reset" resetHandler = q :: tail) :
    Server.setup routes resetHandler st =
      if ((q :: tail).map Prod.fst).contains "/" then .ok (q :: tail)
      else .ok (dictSet (q :: tail) "/" q.2) := by
  simp only [Server.setup, hj]
  rw [if_neg (by simpa [List.isEmpty_iff] using hne), hht]

/-- C10 (amended): every successful `Server.setup` leaves a route table
in which both the root URL and the reset URL (slash + `--reset`) resolve,
the reset URL is bound to the synthetic reset handler, and, when no route
was registered under the root URL, the handler installed there is the
first entry of the table after the reset installation: the first
registered route's handler, except when the first registered route's URL
is itself the reset URL, in which case it is the freshly installed reset
handler. -/
theorem C10_setup_routes {α : Type} (p₀ : String × α) (rest : List (String × α))
    (resetHandler : α) (st : PyVal) (routes' : List (String × α))
    (hok : Server.setup (p₀ :: rest) resetHandler st = .ok routes') :
    (∃ hdl, alistLookup routes' "/" = some hdl) ∧
    alistLookup routes' "/--reset" = some resetHandler ∧
    ("/" ∉ (p₀ :: rest).map Prod.fst →
      alistLookup routes' "/" =
        some (if p₀.1 = "/--reset" then resetHandler else p₀.2)) := by
  have hslash : ("/" : String) ≠ "/--reset" := by decide
  rcases hd : dehydrate_json st with e | j
  · simp only [Server.setup, hd] at hok
    cases hok
  · obtain ⟨tail, hht⟩ := dictSet_head p₀ rest "/--reset" resetHandler
    set q := if p₀.1 = "/--reset" then (("/--reset" : String), resetHandler) else p₀ with hq
    have hq2 : q.2 = if p₀.1 = "/--reset" then resetHandler else p₀.2 := by
      by_cases hp : p₀.1 = "/--reset"
      · rw [hq, if_pos hp, if_pos hp]
      · rw [hq, if_neg hp, if_neg hp]
    rw [setup_ok_char (p₀ :: rest) resetHandler st j q tail hd (by simp) hht] at hok
    rw [← hht] at hok
    by_cases hc : ((dictSet (p₀ :: rest) "/--reset" resetHandler).map Prod.fst).contains "/" = true
    · rw [if_pos hc] at hok
      cases hok
      obtain ⟨k', hk', hbeq⟩ := List.contains_iff_exists_mem_beq.mp hc
      obtain rfl : ("/" : String) = k' := by simpa using hbeq
      refine ⟨alistLookup_some_of_mem_ids _ "/" hk', ?_, ?_⟩
      · exact alistLookup_dictSet_self (p₀ :: rest) "/--reset" resetHandler
      · intro hnin
        exact absurd ((mem_keys_dictSet (p₀ :: rest) "/--reset" "/" resetHandler
          hslash).mp hk') hnin
    · rw [if_neg hc] at hok
      cases hok
      refine ⟨?_, ?_, fun _ => ?_⟩
      · exact ⟨q.2, alistLookup_dictSet_self _ "/" q.2⟩
      · rw [alistLookup_dictSet_other _ "/" "/--reset" _ (fun h => hslash h.symm)]
        exact alistLookup_dictSet_self (p₀ :: rest) "/--reset" resetHandler
      · rw [alistLookup_dictSet_self _ "/" q.2, hq2]

/-- Witness for C10: routes registered as `"/index"` then `"/about"`,
no root route registered: setup succeeds, the root and reset URLs resolve, and
`'/'` is bound to the first registered handler. -/
theorem C10_setup_routes_witness :
    Server.setup [("/index", "h1"), ("/about", "h2")] "reset" .vNone =
      .ok [("/index", "h1"), ("/about", "h2"), ("/--reset", "reset"), ("/", "h1")] ∧
    ((∃ hdl, alistLookup [("/index", "h1"), ("/about", "h2"), ("/--reset", "reset"),
        ("/", "h1")] "/" = some hdl) ∧
      alistLookup [("/index", "h1"), ("/about", "h2"), ("/--reset", "reset"),
        ("/", "h1")] "/--reset" = some "reset" ∧
      ("/" ∉ ([("/index", "h1"), ("/about", "h2")].map Prod.fst) →
        alistLookup [("/index", "h1"), ("/about", "h2"), ("/--reset", "reset"),
          ("/", "h1")] "/" =
          some (if ("/index", "h1").1 = "/--reset" then "reset" else ("/index", "h1").2))) :=
  ⟨rfl,
    C10_setup_routes ("/index", "h1") [("/about", "h2")] "reset" .vNone _ rfl⟩

/-- Counterexample to C10 as stated: if the only registered route is the
reset URL (slash + `--reset`) itself, setup first overwrites it in place
with the synthetic reset handler and then installs the table's first
value — now the reset handler, not the first registered route's handler —
under the root URL. -/
theorem C10_setup_routes_counterexample :
    Server.setup [("/--reset", "orig")] "reset" .vNone =
      .ok [("/--reset", "reset"), ("/", "reset")] ∧
    alistLookup [("/--reset", "reset"), ("/", "reset")] "/" ≠ some "orig" :=
  ⟨rfl, by decide⟩

/-- Adds a character to the front of the first group of a split result:
the continuation step of scanning for a separator occurrence. -/
def consHeadGroup (c : Char) : List (List Char) → List (List Char)
  | [] => [[c]]
  | g :: gs => (c :: g) :: gs

/-- Python `str.split(sep)` (no maxsplit, `sep` nonempty) at the
character level: scans left to right, splitting at each leftmost
occurrence of `sep`. -/
def splitOnSeq (sep : List Char) (s : List Char) : List (List Char) :=
  if h : sep ≠ [] ∧ sep.isPrefixOf s = true then
    [] :: splitOnSeq sep (s.drop sep.length)
  else
    match s with
    | [] => [[]]
    | a :: rest => consHeadGroup a (splitOnSeq sep rest)
termination_by s.length
decreasing_by
  · have h1 : sep.length ≤ s.length := (List.isPrefixOf_iff_prefix.mp h.2).length_le
    have h2 : 0 < sep.length := List.length_pos.mpr h.1
    rw [List.length_drop]
    omega
  · simp

/-- Python `sep.join(parts)` at the character level. -/
def joinSep (sep : List Char) : List (List Char) → List Char
  | [] => []
  | [p] => p
  | p :: q :: ps => p ++ sep ++ joinSep sep (q :: ps)

/-- Python `s.split(sep)` on strings. -/
def pySplit (sep s : String) : List String :=
  (splitOnSeq sep.data s.data).map (fun l => String.mk l)

/-- Python `sep.join(parts)` on strings. -/
def pyJoin (sep : String) (parts : List String) : String :=
  String.mk (joinSep sep.data (parts.map String.data))

theorem splitOnSeq_headPre (sep s : List Char) (hne : sep ≠ [])
    (hpre : sep.isPrefixOf s = true) :
    splitOnSeq sep s = [] :: splitOnSeq sep (s.drop sep.length) := by
  rw [splitOnSeq, dif_pos ⟨hne, hpre⟩]

theorem splitOnSeq_nil (sep : List Char) (hne : sep ≠ []) :
    splitOnSeq sep [] = [[]] := by
  rw [splitOnSeq, dif_neg]
  intro h
  rcases sep with - | ⟨c, cs⟩
  · exact hne rfl
  · cases h.2

theorem splitOnSeq_cons_noPre (sep : List Char) (a : Char) (rest : List Char)
    (hnp : ¬ sep.isPrefixOf (a :: rest) = true) :
    splitOnSeq sep (a :: rest) = consHeadGroup a (splitOnSeq sep rest) := by
  rw [splitOnSeq, dif_neg]
  intro h
  exact hnp h.2

theorem splitOnSeq_single (c : Char) (sepRest : List Char) :
    ∀ (p : List Char), c ∉ p → splitOnSeq (c :: sepRest) p = [p] := by
  intro p
  induction p with
  | nil => intro _; exact splitOnSeq_nil (c :: sepRest) (List.cons_ne_nil c sepRest)
  | cons a r ih =>
    intro hc
    have ha : a ≠ c := by
      intro h
      exact hc (h ▸ List.mem_cons_self a r)
    have hnp : ¬ (c :: sepRest).isPrefixOf (a :: r) = true := by
      simp only [List.isPrefixOf, Bool.and_eq_true, beq_iff_eq]
      intro h
      exact ha h.1.symm
    rw [splitOnSeq_cons_noPre _ _ _ hnp, ih (fun h => hc (List.mem_cons_of_mem a h))]
    rfl

theorem splitOnSeq_step (c : Char) (sepRest : List Char) :
    ∀ (p t : List Char), c ∉ p →
      splitOnSeq (c :: sepRest) (p ++ (c :: sepRest) ++ t) =
        p :: splitOnSeq (c :: sepRest) t := by
  intro p
  induction p with
  | nil =>
    intro t _
    rw [List.nil_append]
    have hpre : (c :: sepRest).isPrefixOf ((c :: sepRest) ++ t) = true :=
      List.isPrefixOf_iff_prefix.mpr ⟨t, rfl⟩
    rw [splitOnSeq_headPre _ _ (List.cons_ne_nil c sepRest) hpre, List.drop_left]
  | cons a p' ih =>
    intro t hc
    have ha : a ≠ c := by
      intro h
      exact hc (h ▸ List.mem_cons_self a p')
    have heq : (a :: p') ++ (c :: sepRest) ++ t = a :: (p' ++ (c :: sepRest) ++ t) := by
      simp
    rw [heq]
    have hnp : ¬ (c :: sepRest).isPrefixOf (a :: (p' ++ (c :: sepRest) ++ t)) = true := by
      simp only [List.isPrefixOf, Bool.and_eq_true, beq_iff_eq]
      intro h
      exact ha h.1.symm
    rw [splitOnSeq_cons_noPre _ _ _ hnp]
    rw [ih t (fun h => hc (List.mem_cons_of_mem a h))]
    rfl

theorem splitOnSeq_joinSep (c : Char) (sepRest : List Char) :
    ∀ (ps : List (List Char)), ps ≠ [] → (∀ p ∈ ps, c ∉ p) →
      splitOnSeq (c :: sepRest) (joinSep (c :: sepRest) ps) = ps := by
  intro ps
  induction ps with
  | nil => intro h _; exact absurd rfl h
  | cons p ps' ih =>
    intro _ hfree
    cases ps' with
    | nil =>
      rw [joinSep]
      exact splitOnSeq_single c sepRest p (hfree p (by simp))
    | cons q qs =>
      rw [joinSep, splitOnSeq_step c sepRest p _ (hfree p (by simp)),
        ih (List.cons_ne_nil q qs) (fun r hr => hfree r (List.mem_cons_of_mem p hr))]

theorem joinSep_ne_nil (sep : List Char) :
    ∀ (ps : List (List Char)), ps ≠ [] → (∀ p ∈ ps, p ≠ []) →
      joinSep sep ps ≠ [] := by
  intro ps
  induction ps with
  | nil => intro h _; exact absurd rfl h
  | cons p ps' _ =>
    intro _ hne
    cases ps' with
    | nil => exact hne p (by simp)
    | cons q qs =>
      rw [joinSep]
      intro h
      rcases List.append_eq_nil.mp h with ⟨h1, -⟩
      rcases List.append_eq_nil.mp h1 with ⟨h2, -⟩
      exact hne p (by simp) h2

theorem mem_joinSep (sep : List Char) :
    ∀ (ps : List (List Char)) (ch : Char), ch ∈ joinSep sep ps →
      ch ∈ sep ∨ ∃ p ∈ ps, ch ∈ p := by
  intro ps
  induction ps with
  | nil => intro ch h; cases h
  | cons p ps' ih =>
    intro ch h
    cases ps' with
    | nil => exact .inr ⟨p, by simp, h⟩
    | cons q qs =>
      rw [joinSep, List.append_assoc] at h
      rcases List.mem_append.mp h with h1 | h2
      · exact .inr ⟨p, by simp, h1⟩
      · rcases List.mem_append.mp h2 with h3 | h4
        · exact .inl h3
        · rcases ih ch h4 with h5 | ⟨r, hr, h6⟩
          · exact .inl h5
          · exact .inr ⟨r, List.mem_cons_of_mem p hr, h6⟩

/-- The two flavours of Python `datetime` the ledger round trip
distinguishes, keyed by the decimal POSIX-timestamp string that
`dt.timestamp()` renders (carried opaquely; `float(...)` of a nonempty
timestamp string rounds the same text through).  The source stores
timezone-aware UTC datetimes (`datetime.now(timezone_UTC)`), while
`VisitedPage.fromstr` rebuilds them with
`datetime.fromtimestamp(float(s))`, which yields a *naive local*
datetime denoting the same instant.  Python `==` between an aware and a
naive datetime is always `False`, which the derived equality mirrors:
the two constructors never compare equal. -/
inductive PyDateTime where
  | aware (epoch : String) : PyDateTime
  | naive (epoch : String) : PyDateTime
deriving Repr, DecidableEq

/-- `dt.timestamp()` as the f-string renders it: the epoch string. -/
def PyDateTime.timestamp : PyDateTime → String
  | .aware e => e
  | .naive e => e

/-- `self.stopped.timestamp() if self.stopped else ''`. -/
def stoppedField : Option PyDateTime → String
  | none => ""
  | some dt => dt.timestamp

/-- One entry of the navigation ledger (`drafter/history.py`
`VisitedPage`).  The handler reference is modelled by name; the
timestamps are `PyDateTime`s; `Option` fields correspond to Python
`None`. -/
structure VisitedPage where
  url : String
  function : String
  arguments : String
  status : String
  button_pressed : String
  original_page_content : Option String
  old_state : Option String
  started : PyDateTime
  stopped : Option PyDateTime
deriving Repr, DecidableEq

/-- Python `x or ''` on an optional string (`None` and `''` both give `''`). -/
def orEmpty : Option String → String
  | none => ""
  | some s => s

/-- Embeds `VisitedPage.__str__`: the eight fields joined with `'|'`,
with `original_page_content or ''`, `old_state or ''`, the start
timestamp rendered as `self.started.timestamp()`, and the stop timestamp
rendered the same way or as `''` when absent. -/
def VisitedPage.str (vp : VisitedPage) : String :=
  pyJoin "|" [vp.url, vp.arguments, vp.status, vp.button_pressed,
    orEmpty vp.original_page_content, orEmpty vp.old_state,
    vp.started.timestamp, stoppedField vp.stopped]

/-- Embeds `VisitedPage.fromstr`: splits on `'|'` into exactly eight
fields (anything else is the uncaught unpacking `ValueError`), parses the
timestamps (`float('')` raises), maps `''` back to `None` for the page
snapshot and the stop timestamp, rebuilds the timestamps with
`datetime.fromtimestamp(float(...))` — which produces *naive local*
datetimes, not the aware UTC datetimes the ledger started with — and, as
the source itself concedes with "this is false, but I need sth.",
installs `get_main_server().original_routes[0][1]`, the first registered
route's handler, as the `function` reference. -/
def VisitedPage.fromstr (firstRouteFn : String) (vp : String) : Except String VisitedPage :=
  match pySplit "|" vp with
  | [url, args, status, button_pressed, opc_str, old_state_str, started_str, stopped_str] =>
    if started_str = "" then .error "could not convert string to float"
    else
      .ok { url := url, function := firstRouteFn, arguments := args, status := status,
            button_pressed := button_pressed,
            original_page_content := if opc_str = "" then none else some opc_str,
            old_state := some old_state_str,
            started := .naive started_str,
            stopped := if stopped_str = "" then none
                       else some (.naive stopped_str) }
  | _ => .error "not enough values to unpack"

/-- Embeds `Server.stringify_history`: each entry is the `VisitedPage`
string joined to its serialised prior state by a tab-pipe-tab separator,
and entries are joined by newline-pipe-newline. -/
def stringify_history (history : List (VisitedPage × String)) : String :=
  pyJoin "\n|\n" (history.map (fun e => e.1.str ++ "\t|\t" ++ e.2))

/-- One line of `Server.destringify_history`: the tab-pipe-tab split must
give exactly the entry part and the state part, and the entry part is
parsed with `VisitedPage.fromstr`. -/
def decodeLine (firstRouteFn : String) (line : String) :
    Except String (VisitedPage × String) :=
  match pySplit "\t|\t" line with
  | [vp, s] => (VisitedPage.fromstr firstRouteFn vp).map (fun p => (p, s))
  | _ => .error "not enough values to unpack"

/-- Embeds `Server.destringify_history`: the empty string decodes to the
empty ledger; otherwise each line splits into exactly the entry and state
parts and the entry is parsed with `VisitedPage.fromstr`. -/
def destringify_history (firstRouteFn : String) (hist_str : String) :
    Except String (List (VisitedPage × String)) :=
  if hist_str = "" then .ok []
  else mapE (decodeLine firstRouteFn) (pySplit "\n|\n" hist_str)

/-- A string free of the serializer's three delimiter characters. -/
def cleanField (s : String) : Bool :=
  s.data.all (fun ch => !(ch = '|' || ch = '\n' || ch = '\t'))

/-- A string free of the two outer delimiter characters (the serialised
state may contain `'|'`). -/
def cleanState (s : String) : Bool :=
  s.data.all (fun ch => !(ch = '\n' || ch = '\t'))

/-- Ledger entries the flat delimiter format can carry: no delimiter
characters inside any `VisitedPage` field, no outer delimiters inside the
state string, and a nonempty start timestamp. -/
def serializableEntry (e : VisitedPage × String) : Bool :=
  cleanField e.1.url && cleanField e.1.arguments && cleanField e.1.status &&
  cleanField e.1.button_pressed && cleanField (orEmpty e.1.original_page_content) &&
  cleanField (orEmpty e.1.old_state) && cleanField e.1.started.timestamp &&
  cleanField (stoppedField e.1.stopped) && !(e.1.started.timestamp = "") &&
  cleanState e.2

/-- What one serialisation round actually preserves of an entry: every
field except that the handler reference is replaced by the first
registered route's handler, the prior state collapses `None` to `''`
(coming back as `''`), an empty page snapshot collapses to `None`, and
both timestamps come back as *naive* datetimes rebuilt from their epoch
strings — never equal to the aware originals — with an absent stop
timestamp staying `None`. -/
def normalizeEntry (firstRouteFn : String) (e : VisitedPage × String) :
    VisitedPage × String :=
  ({ e.1 with
      function := firstRouteFn,
      original_page_content :=
        if e.1.original_page_content = some "" then none
        else e.1.original_page_content,
      old_state := some (orEmpty e.1.old_state),
      started := .naive e.1.started.timestamp,
      stopped := if stoppedField e.1.stopped = "" then none
                 else some (.naive (stoppedField e.1.stopped)) }, e.2)

theorem mapE_map {ε α β γ : Type} (f : β → Except ε γ) (g : α → β) :
    ∀ (l : List α), mapE f (l.map g) = mapE (fun x => f (g x)) l := by
  intro l
  induction l with
  | nil => rfl
  | cons a as ih => rw [List.map_cons, mapE, mapE, ih]

theorem cleanField_spec (s : String) (h : cleanField s = true) :
    ∀ ch ∈ s.data, ch ≠ '|' ∧ ch ≠ '\n' ∧ ch ≠ '\t' := by
  rw [cleanField, List.all_eq_true] at h
  intro ch hch
  have := h ch hch
  simp only [Bool.not_eq_true', Bool.or_eq_false_iff, decide_eq_false_iff_not] at this
  exact ⟨this.1.1, this.1.2, this.2⟩

theorem cleanState_spec (s : String) (h : cleanState s = true) :
    ∀ ch ∈ s.data, ch ≠ '\n' ∧ ch ≠ '\t' := by
  rw [cleanState, List.all_eq_true] at h
  intro ch hch
  have := h ch hch
  simp only [Bool.not_eq_true', Bool.or_eq_false_iff, decide_eq_false_iff_not] at this
  exact ⟨this.1, this.2⟩

theorem pySplit_pyJoin (sep : String) (c : Char) (sepRest : List Char)
    (hdata : sep.data = c :: sepRest) (parts : List String) (hne : parts ≠ [])
    (hfree : ∀ p ∈ parts, c ∉ p.data) :
    pySplit sep (pyJoin sep parts) = parts := by
  rw [pySplit, pyJoin]
  show (splitOnSeq sep.data (joinSep sep.data (parts.map String.data))).map
    (fun l => String.mk l) = parts
  rw [hdata, splitOnSeq_joinSep c sepRest (parts.map String.data)
    (by simpa using hne)
    (by
      intro p hp
      obtain ⟨q, hq, rfl⟩ := List.mem_map.mp hp
      exact hfree q hq)]
  rw [List.map_map]
  have hid : ∀ s ∈ parts, ((fun l => String.mk l) ∘ String.data) s = id s :=
    fun s _ => rfl
  rw [List.map_congr_left hid, List.map_id]

theorem vpStr_chars (vp : VisitedPage)
    (h1 : cleanField vp.url = true) (h2 : cleanField vp.arguments = true)
    (h3 : cleanField vp.status = true) (h4 : cleanField vp.button_pressed = true)
    (h5 : cleanField (orEmpty vp.original_page_content) = true)
    (h6 : cleanField (orEmpty vp.old_state) = true)
    (h7 : cleanField vp.started.timestamp = true)
    (h8 : cleanField (stoppedField vp.stopped) = true) :
    ∀ ch ∈ vp.str.data, ch ≠ '\n' ∧ ch ≠ '\t' := by
  intro ch hch
  have hch' : ch ∈ joinSep ("|".data)
      ([vp.url, vp.arguments, vp.status, vp.button_pressed,
        orEmpty vp.original_page_content, orEmpty vp.old_state,
        vp.started.timestamp, stoppedField vp.stopped].map String.data) := hch
  rcases mem_joinSep _ _ ch hch' with hsep | ⟨p, hp, hchp⟩
  · have : ch = '|' := by simpa using hsep
    subst this
    exact ⟨by decide, by decide⟩
  · obtain ⟨q, hq, rfl⟩ := List.mem_map.mp hp
    have hcln : cleanField q = true := by
      simp only [List.mem_cons, List.not_mem_nil, or_false] at hq
      rcases hq with rfl | rfl | rfl | rfl | rfl | rfl | rfl | rfl
      · exact h1
      · exact h2
      · exact h3
      · exact h4
      · exact h5
      · exact h6
      · exact h7
      · exact h8
    have := cleanField_spec q hcln ch hchp
    exact ⟨this.2.1, this.2.2⟩

theorem serializableEntry_spec (e : VisitedPage × String)
    (hse : serializableEntry e = true) :
    cleanField e.1.url = true ∧ cleanField e.1.arguments = true ∧
    cleanField e.1.status = true ∧ cleanField e.1.button_pressed = true ∧
    cleanField (orEmpty e.1.original_page_content) = true ∧
    cleanField (orEmpty e.1.old_state) = true ∧
    cleanField e.1.started.timestamp = true ∧
    cleanField (stoppedField e.1.stopped) = true ∧
    ¬ (e.1.started.timestamp = "") ∧ cleanState e.2 = true := by
  rw [serializableEntry] at hse
  simp only [Bool.and_eq_true, Bool.not_eq_true', decide_eq_false_iff_not] at hse
  exact ⟨hse.1.1.1.1.1.1.1.1.1, hse.1.1.1.1.1.1.1.1.2, hse.1.1.1.1.1.1.1.2,
    hse.1.1.1.1.1.1.2, hse.1.1.1.1.1.2, hse.1.1.1.1.2, hse.1.1.1.2, hse.1.1.2,
    hse.1.2, hse.2⟩

theorem opt_collapse (o : Option String) :
    (if orEmpty o = "" then none else some (orEmpty o)) =
      (if o = some "" then none else o) := by
  rcases o with - | s
  · simp [orEmpty]
  · by_cases hs : s = ""
    · subst hs; simp [orEmpty]
    · simp [orEmpty, hs]

theorem fromstr_str (firstFn : String) (vp : VisitedPage)
    (h1 : cleanField vp.url = true) (h2 : cleanField vp.arguments = true)
    (h3 : cleanField vp.status = true) (h4 : cleanField vp.button_pressed = true)
    (h5 : cleanField (orEmpty vp.original_page_content) = true)
    (h6 : cleanField (orEmpty vp.old_state) = true)
    (h7 : cleanField vp.started.timestamp = true)
    (h8 : cleanField (stoppedField vp.stopped) = true)
    (h9 : ¬ (vp.started.timestamp = "")) :
    VisitedPage.fromstr firstFn vp.str =
      .ok { vp with
        function := firstFn,
        original_page_content :=
          if vp.original_page_content = some "" then none
          else vp.original_page_content,
        old_state := some (orEmpty vp.old_state),
        started := .naive vp.started.timestamp,
        stopped := if stoppedField vp.stopped = "" then none
                   else some (.naive (stoppedField vp.stopped)) } := by
  have hsplit : pySplit "|" vp.str =
      [vp.url, vp.arguments, vp.status, vp.button_pressed,
        orEmpty vp.original_page_content, orEmpty vp.old_state,
        vp.started.timestamp, stoppedField vp.stopped] := by
    refine pySplit_pyJoin "|" '|' [] rfl _ (by simp) ?_
    intro p hp
    simp only [List.mem_cons, List.not_mem_nil, or_false] at hp
    have hcln : cleanField p = true := by
      rcases hp with rfl | rfl | rfl | rfl | rfl | rfl | rfl | rfl
      · exact h1
      · exact h2
      · exact h3
      · exact h4
      · exact h5
      · exact h6
      · exact h7
      · exact h8
    intro hch
    exact (cleanField_spec p hcln '|' hch).1 rfl
  simp only [VisitedPage.fromstr, hsplit, if_neg h9]
  rw [opt_collapse vp.original_page_content]

theorem pyJoin_pair (sep a b : String) : pyJoin sep [a, b] = a ++ sep ++ b := by
  show String.mk (joinSep sep.data [a.data, b.data]) = a ++ sep ++ b
  have h1 : joinSep sep.data [a.data, b.data] = a.data ++ sep.data ++ b.data := rfl
  rw [h1]
  rfl

theorem line_decode (firstFn : String) (x : VisitedPage × String)
    (hse : serializableEntry x = true) :
    decodeLine firstFn (x.1.str ++ "\t|\t" ++ x.2) = .ok (normalizeEntry firstFn x) := by
  obtain ⟨h1, h2, h3, h4, h5, h6, h7, h8, h9, h10⟩ := serializableEntry_spec x hse
  have hinner : pySplit "\t|\t" (x.1.str ++ "\t|\t" ++ x.2) = [x.1.str, x.2] := by
    rw [← pyJoin_pair "\t|\t" x.1.str x.2]
    refine pySplit_pyJoin "\t|\t" '\t' ['|', '\t'] rfl _ (by simp) ?_
    intro p hp
    simp only [List.mem_cons, List.not_mem_nil, or_false] at hp
    rcases hp with rfl | rfl
    · intro hch
      exact (vpStr_chars x.1 h1 h2 h3 h4 h5 h6 h7 h8 '\t' hch).2 rfl
    · intro hch
      exact (cleanState_spec x.2 h10 '\t' hch).2 rfl
  simp only [decodeLine, hinner]
  rw [fromstr_str firstFn x.1 h1 h2 h3 h4 h5 h6 h7 h8 h9]
  rfl

theorem destringify_stringify (firstFn : String) (h : List (VisitedPage × String))
    (hs : h.all serializableEntry = true) :
    destringify_history firstFn (stringify_history h) =
      .ok (h.map (normalizeEntry firstFn)) := by
  cases h with
  | nil => rfl
  | cons e es =>
    have hall : ∀ x ∈ e :: es, serializableEntry x = true := List.all_eq_true.mp hs
    have hmem : ∀ x ∈ e :: es, ∀ ch ∈ (x.1.str ++ "\t|\t" ++ x.2).data, ch ≠ '\n' := by
      intro x hx ch hch
      obtain ⟨hh1, hh2, hh3, hh4, hh5, hh6, hh7, hh8, hh9, hh10⟩ :=
        serializableEntry_spec x (hall x hx)
      have hd : (x.1.str ++ "\t|\t" ++ x.2).data =
          x.1.str.data ++ "\t|\t".data ++ x.2.data := rfl
      rw [hd] at hch
      rcases List.mem_append.mp hch with h12 | h3
      · rcases List.mem_append.mp h12 with ha | hb
        · exact (vpStr_chars x.1 hh1 hh2 hh3 hh4 hh5 hh6 hh7 hh8 ch ha).1
        · intro heq
          subst heq
          exact absurd hb (by decide)
      · exact (cleanState_spec x.2 hh10 ch h3).1
    have hne_str : stringify_history (e :: es) ≠ "" := by
      intro hcontra
      have hj : joinSep ("\n|\n".data)
          (((e :: es).map (fun x => x.1.str ++ "\t|\t" ++ x.2)).map String.data) = [] :=
        congrArg String.data hcontra
      refine joinSep_ne_nil ("\n|\n".data) _ (by simp) ?_ hj
      intro p hp
      obtain ⟨q, hq, rfl⟩ := List.mem_map.mp hp
      obtain ⟨x, hx, rfl⟩ := List.mem_map.mp hq
      intro hnil
      have hmemtab : '\t' ∈ (x.1.str ++ "\t|\t" ++ x.2).data := by
        have hd : (x.1.str ++ "\t|\t" ++ x.2).data =
            x.1.str.data ++ "\t|\t".data ++ x.2.data := rfl
        rw [hd]
        exact List.mem_append.mpr (.inl (List.mem_append.mpr (.inr (by decide))))
      rw [hnil] at hmemtab
      cases hmemtab
    have houter : pySplit "\n|\n" (stringify_history (e :: es)) =
        (e :: es).map (fun x => x.1.str ++ "\t|\t" ++ x.2) := by
      refine pySplit_pyJoin "\n|\n" '\n' ['|', '\n'] rfl _ (by simp) ?_
      intro p hp
      obtain ⟨x, hx, rfl⟩ := List.mem_map.mp hp
      intro hch
      exact hmem x hx '\n' hch rfl
    rw [destringify_history, if_neg hne_str, houter, mapE_map]
    exact mapE_ok_of_forall _ (normalizeEntry firstFn) (e :: es)
      (fun x hx => line_decode firstFn x (hall x hx))

/-- C3: the round trip `destringify_history (stringify_history h)` does not
in general return `h` itself: the handler reference of every decoded entry
is the first registered route's handler (the source comments "this is
false, but I need sth."), a `None` prior state comes back as `some ""`,
an empty-string page snapshot collapses to `None`, and the timestamps
come back as *naive local* datetimes rebuilt by
`datetime.fromtimestamp(float(...))` — never equal to the aware UTC
datetimes the ledger records.  What does hold, for every ledger whose
rendered fields are free of the flat format's delimiter characters and
whose start timestamps are nonempty, is that deserialisation succeeds and
returns exactly the entry list with those four normalisations applied. -/
theorem C3_history_roundtrip (firstFn : String) (h : List (VisitedPage × String))
    (hs : h.all serializableEntry = true) :
    destringify_history firstFn (stringify_history h) =
      .ok (h.map (normalizeEntry firstFn)) :=
  destringify_stringify firstFn h hs

theorem C3_history_roundtrip_witness :
    ([(VisitedPage.mk "/" "index" "()" "200 OK" "btn" (some "snap") (some "st")
        (.aware "1.5") (some (.aware "2.5")), "7")].all serializableEntry = true) ∧
    destringify_history "index"
        (stringify_history [(VisitedPage.mk "/" "index" "()" "200 OK" "btn" (some "snap")
          (some "st") (.aware "1.5") (some (.aware "2.5")), "7")]) =
      .ok ([(VisitedPage.mk "/" "index" "()" "200 OK" "btn" (some "snap") (some "st")
          (.aware "1.5") (some (.aware "2.5")), "7")].map (normalizeEntry "index")) :=
  ⟨by decide,
    C3_history_roundtrip "index"
      [(VisitedPage.mk "/" "index" "()" "200 OK" "btn" (some "snap") (some "st")
        (.aware "1.5") (some (.aware "2.5")), "7")] (by decide)⟩

theorem C3_history_roundtrip_counterexample :
    destringify_history "index"
        (stringify_history [(VisitedPage.mk "/" "other" "()" "200" "" none none
          (.aware "1.5") none, "7")]) ≠
      .ok [(VisitedPage.mk "/" "other" "()" "200" "" none none (.aware "1.5") none,
        "7")] := by
  intro hcontra
  have heval := destringify_stringify "index"
    [(VisitedPage.mk "/" "other" "()" "200" "" none none (.aware "1.5") none, "7")]
    (by decide)
  rw [hcontra] at heval
  simp [normalizeEntry] at heval

mutual

/-- Python `repr(value)` as it appears in the verification f-strings:
`None`, `True`/`False`, decimal integers, single-quoted strings (escape
sequences inside the text are not modelled), bracketed lists, braced
dicts, the dataclass `Cls(field=value, ...)` form, and the default
`<cls object>` form for anything else. -/
def pyRepr : PyVal → String
  | .vNone => "None"
  | .vBool b => if b then "True" else "False"
  | .vInt n => toString n
  | .vStr s => "\x27" ++ s ++ "\x27"
  | .vList xs => "[" ++ String.intercalate ", " (pyReprList xs) ++ "]"
  | .vDict es => "\x7b" ++ String.intercalate ", " (pyReprEntries es) ++ "\x7d"
  | .vRecord cls fs => cls ++ "(" ++ String.intercalate ", " (pyReprFields fs) ++ ")"
  | .vOpaque cls => "<" ++ cls ++ " object>"

/-- `repr` mapped over list elements. -/
def pyReprList : List PyVal → List String
  | [] => []
  | v :: vs => pyRepr v :: pyReprList vs

/-- `repr(k): repr(v)` over dict entries. -/
def pyReprEntries : List (PyVal × PyVal) → List String
  | [] => []
  | (k, v) :: es => (pyRepr k ++ ": " ++ pyRepr v) :: pyReprEntries es

/-- `field=repr(v)` over dataclass fields. -/
def pyReprFields : List (String × PyVal) → List String
  | [] => []
  | (n, v) :: fs => (n ++ "=" ++ pyRepr v) :: pyReprFields fs

end

/-- The state-drift diagnostic of `Server.verify_page_state_history`,
interpolating the handler reference, the new state's repr, the previous
state's repr and the previous state's class. -/
def stateDriftMessage (fnName : String) (new_state prev : PyVal) : String :=
  "The server did not return a valid Page() object from " ++ fnName ++
  ". The state object's type changed from its previous type. The new value is:\n " ++
  pyRepr new_state ++ "\nThe most recent value was:\n " ++ pyRepr prev ++
  "\nThe expected type was:\n " ++ (classOf prev).display ++
  "\nMake sure you return the same type each time."

/-- Embeds `Server.verify_page_state_history`: an empty state history
returns immediately; otherwise `last_type` is the class of the last
recorded state and the check is `isinstance(page.state, last_type)` —
Python `isinstance`, which accepts subclasses, not a concrete-type
comparison. -/
def verify_page_state_history (state_history : List PyVal) (fnName : String)
    (new_state : PyVal) : Except String Unit :=
  match state_history.getLast? with
  | none => .ok ()
  | some prev =>
    if isinstanceClass new_state (classOf prev) then .ok ()
    else .error (stateDriftMessage fnName new_state prev)

/-- C4: the fresh-session half of the claim holds — an empty state history
makes `verify_page_state_history` return without any check.  The drift
half holds only up to Python `isinstance`: with a nonempty history the
call succeeds exactly when the new state is an `isinstance` of the last
recorded state's class, and fails with the diagnostic naming the new
value, the previous value and the expected previous type exactly
otherwise.  Because `isinstance` accepts subclasses, a new state whose
concrete type differs from the previous one can still pass: `bool` is a
subclass of `int`, so an `int` previous state accepts a `bool` new state
with no error, contradicting the claim as stated. -/
theorem C4_state_type_drift (fnName : String) (history : List PyVal)
    (prev new_state : PyVal) (hlast : history.getLast? = some prev) :
    (verify_page_state_history [] fnName new_state = .ok ()) ∧
    (verify_page_state_history history fnName new_state = .ok () ↔
      isinstanceClass new_state (classOf prev) = true) ∧
    (isinstanceClass new_state (classOf prev) = false →
      verify_page_state_history history fnName new_state =
        .error (stateDriftMessage fnName new_state prev)) := by
  refine ⟨rfl, ?_, ?_⟩
  · simp only [verify_page_state_history, hlast]
    cases hinst : isinstanceClass new_state (classOf prev) <;> simp
  · intro hinst
    simp [verify_page_state_history, hlast, hinst]

theorem C4_state_type_drift_witness :
    ([PyVal.vInt 0, PyVal.vStr "s"].getLast? = some (PyVal.vStr "s")) ∧
    ((verify_page_state_history [] "index" (PyVal.vInt 1) = .ok ()) ∧
    (verify_page_state_history [PyVal.vInt 0, PyVal.vStr "s"] "index" (PyVal.vInt 1) =
        .ok () ↔
      isinstanceClass (PyVal.vInt 1) (classOf (PyVal.vStr "s")) = true) ∧
    (isinstanceClass (PyVal.vInt 1) (classOf (PyVal.vStr "s")) = false →
      verify_page_state_history [PyVal.vInt 0, PyVal.vStr "s"] "index" (PyVal.vInt 1) =
        .error (stateDriftMessage "index" (PyVal.vInt 1) (PyVal.vStr "s")))) :=
  ⟨rfl, C4_state_type_drift "index" [PyVal.vInt 0, PyVal.vStr "s"]
    (PyVal.vStr "s") (PyVal.vInt 1) rfl⟩

theorem C4_state_type_drift_counterexample :
    classOf (PyVal.vBool true) ≠ classOf (PyVal.vInt 0) ∧
    verify_page_state_history [PyVal.vInt 0] "index" (PyVal.vBool true) = .ok () :=
  ⟨by decide, rfl⟩

/-- Python truthiness, `bool(value)`. -/
def pyTruthy : PyVal → Bool
  | .vNone => false
  | .vBool b => b
  | .vInt n => decide (n ≠ 0)
  | .vStr s => decide (s ≠ "")
  | .vList xs => !xs.isEmpty
  | .vDict es => !es.isEmpty
  | .vRecord _ _ => true
  | .vOpaque _ => true

/-- Python `str(value)`: a string is itself, everything else modelled
renders as its repr (`str` and `repr` agree on the embedded values other
than strings). -/
def pyStrOf : PyVal → String
  | .vStr s => s
  | v => pyRepr v

/-- `__origin__` stripping as `convert_parameter` performs before its
`isinstance` check: a parameterised alias becomes its origin builtin,
anything else is unchanged. -/
def stripGeneric : PyType → PyType
  | .tListOf _ => .tList
  | .tDictOf _ _ => .tDict
  | .tNoneType => .tNoneType
  | .tBool => .tBool
  | .tInt => .tInt
  | .tStr => .tStr
  | .tList => .tList
  | .tDict => .tDict
  | .tRecord cls => .tRecord cls
  | .tOpaque cls => .tOpaque cls

/-- The class an annotation denotes for `isinstance` purposes (a
parameterised alias denotes its origin class). -/
def PyType.toClass : PyType → PyClass
  | .tNoneType => .cNoneType
  | .tBool => .cBool
  | .tInt => .cInt
  | .tStr => .cStr
  | .tList => .cList
  | .tListOf _ => .cList
  | .tDict => .cDict
  | .tDictOf _ _ => .cDict
  | .tRecord cls => .cRecord cls
  | .tOpaque cls => .cOpaque cls

/-- The `__name__` the failure message interpolates for the target
annotation. -/
def annotName (t : PyType) : String :=
  t.toClass.name

/-- Python `target_type(value)` as `Server.try_special_conversions`
performs it (`return target_type(value)`): builtin constructor semantics,
a parameterised generic alias calling its origin builtin, a dataclass
constructor accepting exactly one positional value when it has exactly one
field, and everything else raising.  `.error ()` stands for any raised
exception (caught and rewrapped by the caller). -/
def pyCall (ctx : RecordCtx) (t : PyType) (v : PyVal) : Except Unit PyVal :=
  match t, v with
  | .tBool, v => .ok (.vBool (pyTruthy v))
  | .tStr, v => .ok (.vStr (pyStrOf v))
  | .tInt, .vBool b => .ok (.vInt (if b then 1 else 0))
  | .tInt, .vInt n => .ok (.vInt n)
  | .tInt, .vStr s =>
    match s.toInt? with
    | some n => .ok (.vInt n)
    | none => .error ()
  | .tInt, _ => .error ()
  | .tList, .vList xs => .ok (.vList xs)
  | .tList, .vStr s => .ok (.vList (s.data.map (fun c => .vStr (String.mk [c]))))
  | .tList, .vDict es => .ok (.vList (es.map Prod.fst))
  | .tList, _ => .error ()
  | .tListOf _, .vList xs => .ok (.vList xs)
  | .tListOf _, .vStr s => .ok (.vList (s.data.map (fun c => .vStr (String.mk [c]))))
  | .tListOf _, .vDict es => .ok (.vList (es.map Prod.fst))
  | .tListOf _, _ => .error ()
  | .tDict, .vDict es => .ok (.vDict es)
  | .tDict, _ => .error ()
  | .tDictOf _ _, .vDict es => .ok (.vDict es)
  | .tDictOf _ _, _ => .error ()
  | .tNoneType, _ => .error ()
  | .tRecord cls, v =>
    match alistLookup ctx cls with
    | some [(fieldName, _)] => .ok (.vRecord cls [(fieldName, v)])
    | _ => .error ()
  | .tOpaque _, _ => .error ()

/-- One entry of `Server._conversion_record`: `UnchangedRecord(param,
val, empty)` for an absent annotation, the plain two-argument
`UnchangedRecord(param, val)` for the fall-through branch, and
`ConversionRecord(param, val, annotation-of-param, converted)` for a
successful conversion. -/
inductive ConvRecord where
  | unchangedDeclared (param : String) (val : PyVal) : ConvRecord
  | unchangedPassthrough (param : String) (val : PyVal) : ConvRecord
  | convertedRec (param : String) (val : PyVal) (declType : PyType) (result : PyVal) :
      ConvRecord
deriving Repr

/-- The ValueError text of a failed conversion: `Could not convert
param (repr) from type-name to target-name`, newline-terminated. -/
def convertFailMessage (param : String) (val : PyVal) (toName : String) : String :=
  "Could not convert " ++ param ++ " (" ++ pyRepr val ++ ") from " ++
    (classOf val).name ++ " to " ++ toName ++ "\n"

/-- Embeds `Server.convert_parameter`.  A parameter name missing from
`expected_types` is replaced by the variadic parameter's name; a declared
but unannotated parameter returns its value unchanged (logged with the
empty sentinel); an annotated parameter whose value already satisfies
`isinstance` against the origin-stripped annotation falls through
unchanged; otherwise the annotation is called on the value, logging a
`ConversionRecord` on success and raising the detailed ValueError on any
exception. -/
def convert_parameter (ctx : RecordCtx) (expected_types : List (String × Option PyType))
    (var_arg_name : String) (param : String) (val : PyVal) :
    Except String (PyVal × ConvRecord) :=
  let p := if (alistLookup expected_types param).isNone then var_arg_name else param
  match alistLookup expected_types p with
  | some none => .ok (val, .unchangedDeclared p val)
  | some (some t) =>
    if isinstanceClass val (stripGeneric t).toClass then
      .ok (val, .unchangedPassthrough p val)
    else
      match pyCall ctx t val with
      | .ok converted => .ok (converted, .convertedRec p val t converted)
      | .error () => .error (convertFailMessage p val (annotName t))
  | none => .ok (val, .unchangedPassthrough p val)

/-- C6: for a declared parameter, `convert_parameter` behaves exactly as
the claim describes — an absent declared type passes the value through
unchanged and logs it; a value already satisfying `isinstance` against
the origin-stripped declared type passes through unchanged; otherwise the
declared type is called directly on the raw value, logging a
`ConversionRecord` on success, and on any exception raising the
ValueError naming the parameter, the supplied value's repr, the value's
runtime type name, and the target type name. -/
theorem C6_parameter_conversion (ctx : RecordCtx)
    (ets : List (String × Option PyType)) (var_arg_name param : String) (val : PyVal) :
    (alistLookup ets param = some none →
      convert_parameter ctx ets var_arg_name param val =
        .ok (val, .unchangedDeclared param val)) ∧
    (∀ t, alistLookup ets param = some (some t) →
      (isinstanceClass val (stripGeneric t).toClass = true →
        convert_parameter ctx ets var_arg_name param val =
          .ok (val, .unchangedPassthrough param val)) ∧
      (isinstanceClass val (stripGeneric t).toClass = false →
        (∀ r, pyCall ctx t val = .ok r →
          convert_parameter ctx ets var_arg_name param val =
            .ok (r, .convertedRec param val t r)) ∧
        (pyCall ctx t val = .error () →
          convert_parameter ctx ets var_arg_name param val =
            .error (convertFailMessage param val (annotName t))))) := by
  constructor
  · intro hin
    simp only [convert_parameter, hin, Option.isNone_some, Bool.false_eq_true, if_false]
  · intro t hin
    constructor
    · intro hinst
      simp only [convert_parameter, hin, Option.isNone_some, Bool.false_eq_true, if_false,
        hinst, if_true]
    · intro hinst
      constructor
      · intro r hcall
        simp only [convert_parameter, hin, Option.isNone_some, Bool.false_eq_true, if_false,
          hinst, hcall]
      · intro hcall
        simp only [convert_parameter, hin, Option.isNone_some, Bool.false_eq_true, if_false,
          hinst, hcall]

theorem C6_parameter_conversion_witness :
    (alistLookup [("a", some PyType.tBool)] "a" = some (some PyType.tBool)) ∧
    (isinstanceClass (PyVal.vInt 5) (stripGeneric PyType.tBool).toClass = false) ∧
    (pyCall [] PyType.tBool (PyVal.vInt 5) = .ok (PyVal.vBool true)) ∧
    convert_parameter [] [("a", some PyType.tBool)] "" "a" (PyVal.vInt 5) =
      .ok (PyVal.vBool true,
        .convertedRec "a" (PyVal.vInt 5) PyType.tBool (PyVal.vBool true)) :=
  ⟨rfl, rfl, rfl,
    (((C6_parameter_conversion [] [("a", some PyType.tBool)] "" "a"
        (PyVal.vInt 5)).2 PyType.tBool rfl).2 rfl).1 (PyVal.vBool true) rfl⟩

/-- `inspect.Parameter.kind`. -/
inductive ParamKind where
  | posOnly | posOrKwd | varPos | kwdOnly | varKwd
deriving Repr, DecidableEq

/-- One signature parameter: its name, kind and annotation (`none` is
`inspect.Parameter.empty`). -/
structure Param where
  name : String
  kind : ParamKind
  declType : Option PyType
deriving Repr

/-- `expected_pos_params` after its extension in `prepare_args`: the
positional-only names followed by the positional-or-keyword names, state
dropped. -/
def expectedPosParams (params : List Param) : List String :=
  ((params.drop 1).filter (fun p => p.kind = ParamKind.posOnly)).map Param.name ++
    ((params.drop 1).filter (fun p => p.kind = ParamKind.posOrKwd)).map Param.name

/-- `var_pos_param`: the first variadic-positional name, or `""`. -/
def varPosName (params : List Param) : String :=
  (((params.drop 1).filter (fun p => p.kind = ParamKind.varPos)).map Param.name).headD ""

/-- `var_kwd_param`: the first variadic-keyword name, or `""`. -/
def varKwdName (params : List Param) : String :=
  (((params.drop 1).filter (fun p => p.kind = ParamKind.varKwd)).map Param.name).headD ""

/-- The `for used_pos_param in used_pos_params` loop of `prepare_args`:
each used positional name pops the head of `expected_pkw_params` when it
matches.  Reading `expected_pkw_params[0]` on an empty list is an
uncaught IndexError, modelled as `.error ()`. -/
def consumeUsed : List String → List String → Except Unit (List String)
  | [], pkw => .ok pkw
  | _ :: _, [] => .error ()
  | u :: us, p :: ps => consumeUsed us (if p = u then ps else p :: ps)

/-- `itertools.zip_longest(used_pos_params, args, fillvalue="")`: missing
names fill with `""`, missing values fill with the empty string value. -/
def zipFill : List String → List PyVal → List (String × PyVal)
  | n :: ns, v :: vs => (n, v) :: zipFill ns vs
  | [], v :: vs => ("", v) :: zipFill [] vs
  | ns, [] => ns.map (fun n => (n, PyVal.vStr ""))

/-- Stable insertion for `sorted(..., key=...)`: a new element goes after
existing elements with an equal key. -/
def insertByKey {α : Type} (key : α → Nat) (x : α) : List α → List α
  | [] => [x]
  | y :: ys => if key x < key y then x :: y :: ys else y :: insertByKey key x ys

/-- Python `sorted(l, key=key)` (stable, numeric keys). -/
def sortByKey {α : Type} (key : α → Nat) (l : List α) : List α :=
  l.foldl (fun acc x => insertByKey key x acc) []

/-- A `flash_warning` emission of `prepare_args`, carrying the data the
warning f-string interpolates.  (The rendering is not modelled; note the
source's keyword-warning string is even swallowed whole by a misplaced
conditional expression when no positional argument was used.) -/
inductive BindWarning where
  | excessPositional (fnName : String) (maxPos : Nat) (got : Nat)
      (expected : List String) (args : List PyVal) : BindWarning
  | excessKeyword (fnName : String) (maxKwd : Nat) (got : Nat)
      (expected : List String) (kwargs : List (String × PyVal))
      (usedPos : List String) (args : List PyVal) : BindWarning
deriving Repr

/-- An exception escaping `prepare_args`: the IndexError of the
`expected_pkw_params[0]` read, the `I really thought this was
impossible!` ValueError, the unexpected-parameter ValueError, and a
propagated conversion ValueError. -/
inductive PrepErr where
  | indexError : PrepErr
  | impossible : PrepErr
  | unexpectedParameter (key : String) (value : PyVal) (fnName : String)
      (expected : List String) : PrepErr
  | conversionError (msg : String) : PrepErr
deriving Repr

/-- The final loop of `prepare_args`: the first converted keyword pair
whose key is not a declared parameter name raises the
unexpected-parameter ValueError, unless a variadic keyword parameter
exists. -/
def checkUnexpected (fnName : String) (expected : List String) (var_kwd : String)
    (kwargs2 : List (String × PyVal)) : Except PrepErr Unit :=
  if var_kwd = "" then
    match kwargs2.find? (fun kv => !(decide (kv.1 ∈ expected))) with
    | some kv => .error (.unexpectedParameter kv.1 kv.2 fnName expected)
    | none => .ok ()
  else .ok ()

/-- The `representation` string returned by `prepare_args`: reprs of the
positional values, then the keyword pairs sorted stably by declared
position (undeclared keys last), each rendered `key=repr` only for
keyword-only or variadic-keyword names. -/
def renderRep (params : List Param) (args2 : List PyVal)
    (kwargs2 : List (String × PyVal)) : String :=
  let expected_parameters := (params.drop 1).map Param.name
  let show_names := params.map
    (fun p => (p.name, p.kind = ParamKind.kwdOnly || p.kind = ParamKind.varKwd))
  String.intercalate ", "
    ((args2.map pyRepr) ++
      ((sortByKey (fun kv => expected_parameters.indexOf kv.1) kwargs2).map
        (fun kv =>
          if (alistLookup show_names kv.1).getD false then
            kv.1 ++ "=" ++ pyRepr kv.2
          else pyRepr kv.2)))

/-- The conversion stage of `prepare_args`: positional values are
converted against the used positional names (`zip_longest` with empty
fill, variadic-positional fallback), then keyword pairs against their own
keys (variadic-keyword fallback); the first conversion ValueError
propagates. -/
def convertStage (ctx : RecordCtx) (params : List Param) (used_pos : List String)
    (args1 : List PyVal) (kwargs1 : List (String × PyVal)) :
    Except PrepErr (List PyVal × List (String × PyVal)) :=
  let expected_types := params.map (fun p => (p.name, p.declType))
  match mapE (fun pv =>
      (convert_parameter ctx expected_types (varPosName params) pv.1 pv.2).map
        Prod.fst) (zipFill used_pos args1) with
  | .error msg => .error (.conversionError msg)
  | .ok args2 =>
    match mapE (fun kv =>
        (convert_parameter ctx expected_types (varKwdName params) kv.1 kv.2).map
          (fun r => (kv.1, r.1))) kwargs1 with
    | .error msg => .error (.conversionError msg)
    | .ok kwargs2 => .ok (args2, kwargs2)

/-- The tail of `prepare_args`: the unexpected-parameter check over the
converted keywords, then the returned tuple — `button_pressed` is always
`""` in this version. -/
def finishStage (fnName : String) (params : List Param)
    (p : List PyVal × List (String × PyVal)) :
    Except PrepErr (List PyVal × List (String × PyVal) × String × String) :=
  match checkUnexpected fnName ((params.drop 1).map Param.name) (varKwdName params)
      p.2 with
  | .error e => .error e
  | .ok () => .ok (p.1, p.2, renderRep params p.1 p.2, "")

/-- The excess-keyword trim: keep only the first `len(expected_kwd)`
keyword pairs when too many arrived and no variadic keyword parameter
exists (`kwargs.pop` of the last key, repeated). -/
def trimmedKwargs (params : List Param) (pkw_rem : List String)
    (kwargs : List (String × PyVal)) : List (String × PyVal) :=
  let expected_kwd := pkw_rem ++
    ((params.drop 1).filter (fun p => p.kind = ParamKind.kwdOnly)).map Param.name
  if expected_kwd.length < kwargs.length ∧ varKwdName params = "" then
    kwargs.take expected_kwd.length
  else kwargs

/-- The result component of `Server.prepare_args` from the
`used_pos_params` computation onward, on the already-trimmed positional
values: consume used names from the positional-or-keyword list
(IndexError on an empty head read), trim excess keywords, the dead
`impossible` guard, the conversion stage and the finishing stage. -/
def restResult (ctx : RecordCtx) (fnName : String) (params : List Param)
    (args1 : List PyVal) (kwargs : List (String × PyVal)) :
    Except PrepErr (List PyVal × List (String × PyVal) × String × String) :=
  let expected_pkw :=
    ((params.drop 1).filter (fun p => p.kind = ParamKind.posOrKwd)).map Param.name
  let used_pos := (expectedPosParams params).take args1.length
  match consumeUsed used_pos expected_pkw with
  | .error () => .error .indexError
  | .ok pkw_rem =>
    let kwargs1 := trimmedKwargs params pkw_rem kwargs
    if ((params.drop 1).map Param.name).length < args1.length + kwargs1.length ∧
        varPosName params = "" ∧ varKwdName params = "" then
      .error .impossible
    else
      match convertStage ctx params used_pos args1 kwargs1 with
      | .error e => .error e
      | .ok p => finishStage fnName params p

/-- The warnings component of the same stretch of `prepare_args`: only
the excess-keyword trim emits one (nothing is emitted past the IndexError
raise). -/
def restWarns (fnName : String) (params : List Param) (args1 : List PyVal)
    (kwargs : List (String × PyVal)) : List BindWarning :=
  let expected_pkw :=
    ((params.drop 1).filter (fun p => p.kind = ParamKind.posOrKwd)).map Param.name
  let expected_kwd0 :=
    ((params.drop 1).filter (fun p => p.kind = ParamKind.kwdOnly)).map Param.name
  let used_pos := (expectedPosParams params).take args1.length
  match consumeUsed used_pos expected_pkw with
  | .error () => []
  | .ok pkw_rem =>
    let expected_kwd := pkw_rem ++ expected_kwd0
    if expected_kwd.length < kwargs.length ∧ varKwdName params = "" then
      [.excessKeyword fnName expected_kwd.length kwargs.length expected_kwd kwargs
        used_pos args1]
    else []

/-- `Server.prepare_args` from the `used_pos_params` computation onward:
the `flash_warning` emissions paired with the result. -/
def prepare_args_rest (ctx : RecordCtx) (fnName : String) (params : List Param)
    (args1 : List PyVal) (kwargs : List (String × PyVal)) :
    List BindWarning ×
      Except PrepErr (List PyVal × List (String × PyVal) × String × String) :=
  (restWarns fnName params args1 kwargs, restResult ctx fnName params args1 kwargs)

/-- Embeds `Server.prepare_args`: the excess-positional warning-and-trim
stage, then the rest of the pipeline.  The first component collects the
`flash_warning` emissions (non-fatal, in order); the second is the
returned tuple or the first escaping exception. -/
def prepare_args (ctx : RecordCtx) (fnName : String) (params : List Param)
    (args : List PyVal) (kwargs : List (String × PyVal)) :
    List BindWarning ×
      Except PrepErr (List PyVal × List (String × PyVal) × String × String) :=
  let expected_pos := expectedPosParams params
  let trimPos := expected_pos.length < args.length ∧ varPosName params = ""
  let args1 := if trimPos then args.take expected_pos.length else args
  let warn1 : List BindWarning :=
    if trimPos then
      [.excessPositional fnName expected_pos.length args.length expected_pos args]
    else []
  let rest := prepare_args_rest ctx fnName params args1 kwargs
  (warn1 ++ rest.1, rest.2)

/-- C7: when more positional values arrive than the positional-eligible
parameters accept and there is no variadic positional parameter, the run
equals the run on the trimmed argument list with the excess-positional
warning prepended: the warning is emitted, the excess values are
dropped, and binding continues exactly as if the trimmed set had been
supplied — in particular this condition by itself raises nothing. -/
theorem C7_excess_positional (ctx : RecordCtx) (fnName : String) (params : List Param)
    (args : List PyVal) (kwargs : List (String × PyVal))
    (hexcess : (expectedPosParams params).length < args.length)
    (hnovar : varPosName params = "") :
    prepare_args ctx fnName params args kwargs =
      (BindWarning.excessPositional fnName (expectedPosParams params).length
          args.length (expectedPosParams params) args ::
        (prepare_args ctx fnName params
          (args.take (expectedPosParams params).length) kwargs).1,
       (prepare_args ctx fnName params
          (args.take (expectedPosParams params).length) kwargs).2) := by
  have hcond : (expectedPosParams params).length < args.length ∧
      varPosName params = "" := ⟨hexcess, hnovar⟩
  have hcond' : ¬ ((expectedPosParams params).length <
      (args.take (expectedPosParams params).length).length ∧
      varPosName params = "") := by
    rintro ⟨hlt, -⟩
    rw [List.length_take] at hlt
    omega
  simp only [prepare_args, if_pos hcond, if_neg hcond', List.nil_append,
    List.singleton_append]

theorem C7_excess_positional_witness :
    ((expectedPosParams [Param.mk "state" ParamKind.posOrKwd none,
        Param.mk "a" ParamKind.posOrKwd none]).length <
      [PyVal.vInt 1, PyVal.vInt 2].length) ∧
    (varPosName [Param.mk "state" ParamKind.posOrKwd none,
        Param.mk "a" ParamKind.posOrKwd none] = "") ∧
    prepare_args [] "index"
        [Param.mk "state" ParamKind.posOrKwd none, Param.mk "a" ParamKind.posOrKwd none]
        [PyVal.vInt 1, PyVal.vInt 2] [] =
      (BindWarning.excessPositional "index"
          (expectedPosParams [Param.mk "state" ParamKind.posOrKwd none,
            Param.mk "a" ParamKind.posOrKwd none]).length
          [PyVal.vInt 1, PyVal.vInt 2].length
          (expectedPosParams [Param.mk "state" ParamKind.posOrKwd none,
            Param.mk "a" ParamKind.posOrKwd none])
          [PyVal.vInt 1, PyVal.vInt 2] ::
        (prepare_args [] "index"
          [Param.mk "state" ParamKind.posOrKwd none, Param.mk "a" ParamKind.posOrKwd none]
          ([PyVal.vInt 1, PyVal.vInt 2].take
            (expectedPosParams [Param.mk "state" ParamKind.posOrKwd none,
              Param.mk "a" ParamKind.posOrKwd none]).length) []).1,
       (prepare_args [] "index"
          [Param.mk "state" ParamKind.posOrKwd none, Param.mk "a" ParamKind.posOrKwd none]
          ([PyVal.vInt 1, PyVal.vInt 2].take
            (expectedPosParams [Param.mk "state" ParamKind.posOrKwd none,
              Param.mk "a" ParamKind.posOrKwd none]).length) []).2) :=
  ⟨by decide, rfl,
    C7_excess_positional [] "index"
      [Param.mk "state" ParamKind.posOrKwd none, Param.mk "a" ParamKind.posOrKwd none]
      [PyVal.vInt 1, PyVal.vInt 2] [] (by decide) rfl⟩

theorem checkUnexpected_ok_keys (fnName : String) (expected : List String)
    (kwargs2 : List (String × PyVal))
    (hok : checkUnexpected fnName expected "" kwargs2 = .ok ()) :
    ∀ kv ∈ kwargs2, kv.1 ∈ expected := by
  intro kv hkv
  rw [checkUnexpected, if_pos rfl] at hok
  rcases hf : kwargs2.find? (fun kv => !(decide (kv.1 ∈ expected))) with - | p
  · have := List.find?_eq_none.mp hf kv hkv
    simpa using this
  · rw [hf] at hok
    cases hok

theorem restResult_ok_keys (ctx : RecordCtx) (fnName : String)
    (params : List Param) (args1 : List PyVal) (kwargs : List (String × PyVal))
    (out : List PyVal × List (String × PyVal) × String × String)
    (hvk : varKwdName params = "")
    (hok : restResult ctx fnName params args1 kwargs = .ok out) :
    ∀ kv ∈ out.2.1, kv.1 ∈ (params.drop 1).map Param.name := by
  intro kv hkv
  simp only [restResult] at hok
  split at hok
  · cases hok
  · split at hok
    · cases hok
    · split at hok
      · cases hok
      · rename_i p hconv
        simp only [finishStage] at hok
        split at hok
        · cases hok
        · rename_i hchk
          cases hok
          rw [hvk] at hchk
          exact checkUnexpected_ok_keys fnName _ _ hchk kv hkv

/-- C8: binding never silently accepts an undeclared keyword when no
variadic keyword parameter exists — a successful `prepare_args` binds
only declared parameter names as keywords — and whenever a surviving
converted keyword pair's key is undeclared, the final check raises
exactly the fatal unexpected-parameter ValueError naming that key and
its value. -/
theorem C8_unexpected_keyword (ctx : RecordCtx) (fnName : String)
    (params : List Param) (args : List PyVal) (kwargs : List (String × PyVal)) :
    (varKwdName params = "" →
      ∀ out, (prepare_args ctx fnName params args kwargs).2 = .ok out →
        ∀ kv ∈ out.2.1, kv.1 ∈ (params.drop 1).map Param.name) ∧
    (∀ (expected : List String) (kwargs2 : List (String × PyVal))
        (kv : String × PyVal),
      kwargs2.find? (fun p => !(decide (p.1 ∈ expected))) = some kv →
      checkUnexpected fnName expected "" kwargs2 =
        .error (.unexpectedParameter kv.1 kv.2 fnName expected)) := by
  constructor
  · intro hvk out hok
    simp only [prepare_args] at hok
    exact restResult_ok_keys ctx fnName params _ kwargs out hvk hok
  · intro expected kwargs2 kv hfind
    rw [checkUnexpected, if_pos rfl, hfind]

theorem C8_unexpected_keyword_witness :
    (varKwdName [Param.mk "state" ParamKind.posOrKwd none,
        Param.mk "a" ParamKind.posOrKwd none,
        Param.mk "b" ParamKind.posOrKwd none] = "") ∧
    ((prepare_args [] "index"
        [Param.mk "state" ParamKind.posOrKwd none,
          Param.mk "a" ParamKind.posOrKwd none,
          Param.mk "b" ParamKind.posOrKwd none] [] [("a", PyVal.vStr "q")]).2 =
      .ok ([], [("a", PyVal.vStr "q")], "\x27q\x27", "")) ∧
    (("a", PyVal.vStr "q").1 ∈
      ([Param.mk "state" ParamKind.posOrKwd none,
        Param.mk "a" ParamKind.posOrKwd none,
        Param.mk "b" ParamKind.posOrKwd none].drop 1).map Param.name) ∧
    ([("c", PyVal.vStr "y")].find? (fun p => !(decide (p.1 ∈ ["a", "b"]))) =
      some ("c", PyVal.vStr "y")) ∧
    checkUnexpected "index" ["a", "b"] "" [("c", PyVal.vStr "y")] =
      .error (.unexpectedParameter "c" (PyVal.vStr "y") "index" ["a", "b"]) :=
  ⟨rfl, rfl,
    (C8_unexpected_keyword [] "index"
      [Param.mk "state" ParamKind.posOrKwd none,
        Param.mk "a" ParamKind.posOrKwd none,
        Param.mk "b" ParamKind.posOrKwd none] [] [("a", PyVal.vStr "q")]).1 rfl
      ([], [("a", PyVal.vStr "q")], "\x27q\x27", "") rfl ("a", PyVal.vStr "q")
      (List.mem_singleton.mpr rfl),
    rfl,
    (C8_unexpected_keyword [] "index"
      [Param.mk "state" ParamKind.posOrKwd none,
        Param.mk "a" ParamKind.posOrKwd none,
        Param.mk "b" ParamKind.posOrKwd none] [] [("a", PyVal.vStr "q")]).2
      ["a", "b"] [("c", PyVal.vStr "y")] ("c", PyVal.vStr "y") rfl⟩

/-- A plain text value (`isinstance(item, str)`). -/
def isStrVal : PyVal → Bool
  | .vStr _ => true
  | _ => false

/-- A recognised content node (`isinstance(item, PageContent)`); component
instances are the opaque objects of the value model. -/
def isPageContent : PyVal → Bool
  | .vOpaque _ => true
  | _ => false

/-- What a handler invocation handed back to `verify_page_result`:
`None`, a bare string, a bare list, some other non-`Page` object, or a
`Page` carrying its state and content field. -/
inductive Returned where
  | rNone : Returned
  | rStr (s : String) : Returned
  | rList (items : List PyVal) : Returned
  | rOther (v : PyVal) : Returned
  | rPage (state : PyVal) (content : PyVal) : Returned

/-- The shared head of the malformed-content diagnostics of
`verify_page_result`. -/
def pageErrPre (fnName : String) : String :=
  "The server did not return a valid Page() object from " ++ fnName ++
    ".\nInstead of a list of strings or content objects, the content field was"

/-- The shared closing line of the malformed-content diagnostics. -/
def pageErrTail : String :=
  "\nMake sure you return a Page object with the new state and the list of strings/content objects."

/-- The diagnostic for a `Page` whose content field is a string. -/
def msgContentStr (fnName : String) (content : PyVal) : String :=
  pageErrPre fnName ++ (" a string:\n " ++ (pyRepr content ++ pageErrTail))

/-- The diagnostic for a `Page` whose content field is not a list at all. -/
def msgContentOther (fnName : String) (content : PyVal) : String :=
  pageErrPre fnName ++ (":\n " ++ (pyRepr content ++ pageErrTail))

/-- The diagnostic for a content list holding an item that is neither a
string nor a content node (the last such item, as the loop keeps
overwriting `message`). -/
def msgContentBadItem (fnName : String) (content item : PyVal) : String :=
  pageErrPre fnName ++ (":\n " ++ (pyRepr content ++
    ("\nOne of those items is not a string or a content object. Instead, it was:\n " ++
      (pyRepr item ++ pageErrTail))))

/-- Embeds `Server.verify_page_result`: the non-`Page` branches each
build their own message; a real `Page` first runs the state-history check
(whose error propagates), then a string content, a non-list content, or a
list holding a non-string non-component item is fatal — the item loop
keeps the message of the last offender. -/
def verify_page_result (state_history : List PyVal) (fnName : String) (r : Returned) :
    Except String Unit :=
  match r with
  | .rNone => .error
      ("The server did not return a Page object from " ++ fnName ++
        ".\nInstead, it returned None (which happens by default when you do not return anything else).\nMake sure you have a proper return statement for every branch!")
  | .rStr s => .error
      ("The server did not return a Page() object from " ++ fnName ++
        ". Instead, it returned a string:\n  " ++ pyRepr (.vStr s) ++
        "\nMake sure you are returning a Page object with the new state and a list of strings!")
  | .rList items => .error
      ("The server did not return a Page() object from " ++ fnName ++
        ". Instead, it returned a list:\n " ++ pyRepr (.vList items) ++
        "\nMake sure you return a Page object with the new state and the list of strings, not just the list of strings.")
  | .rOther v => .error
      ("The server did not return a Page() object from " ++ fnName ++
        ". Instead, it returned:\n " ++ pyRepr v ++
        "\nMake sure you return a Page object with the new state and the list of strings.")
  | .rPage st content =>
    match verify_page_state_history state_history fnName st with
    | .error e => .error e
    | .ok () =>
      match content with
      | .vStr s => .error (msgContentStr fnName (.vStr s))
      | .vList items =>
        match (items.filter (fun i => !(isStrVal i || isPageContent i))).getLast? with
        | some x => .error (msgContentBadItem fnName (.vList items) x)
        | none => .ok ()
      | other => .error (msgContentOther fnName other)

/-- The non-list-content ValueError of `Page.__init__`. -/
def contentNotListMsg (content : PyVal) : String :=
  "The content of a page must be a list of strings or components. Found " ++
    (classOf content).name ++ " instead."

/-- The bad-item ValueError of `Page.__init__` (first offender, with its
index). -/
def contentBadItemMsg (item : PyVal) (i : Nat) : String :=
  "The content of a page must be a list of strings or components. Found " ++
    (classOf item).name ++ " at index " ++ toString i ++ " instead."

/-- The first content item that is neither a string nor a content node,
with its index — `Page.__init__` raises inside its loop. -/
def firstBadIndex : List PyVal → Nat → Option (PyVal × Nat)
  | [], _ => none
  | x :: xs, i =>
    if !(isStrVal x || isPageContent x) then some (x, i) else firstBadIndex xs (i + 1)

/-- Embeds `Page.__init__`: a lone argument shifts into the content slot
(state becomes `None`), a non-list content raises naming its type, and a
list content raises at the first item that is neither a string nor a
content node, naming its type and index. -/
def pageInit (state content : PyVal) : Except String (PyVal × PyVal) :=
  let sc : PyVal × PyVal :=
    match content with
    | .vNone => (PyVal.vNone, state)
    | c => (state, c)
  match sc.2 with
  | .vList items =>
    match firstBadIndex items 0 with
    | some (x, i) => .error (contentBadItemMsg x i)
    | none => .ok sc
  | other => .error (contentNotListMsg other)

theorem msgContentStr_ne_badItem (fn : String) (c c' x : PyVal) :
    msgContentStr fn c ≠ msgContentBadItem fn c' x := by
  intro h
  have h1 : (pageErrPre fn).data ++
      (" a string:\n " ++ (pyRepr c ++ pageErrTail)).data =
      (pageErrPre fn).data ++ (":\n " ++ (pyRepr c' ++
        ("\nOne of those items is not a string or a content object. Instead, it was:\n " ++
          (pyRepr x ++ pageErrTail)))).data := congrArg String.data h
  have h2 := List.append_cancel_left h1
  have h3 := congrArg List.head? h2
  have ha : (" a string:\n " ++ (pyRepr c ++ pageErrTail)).data.head? = some ' ' := rfl
  have hb : (":\n " ++ (pyRepr c' ++
      ("\nOne of those items is not a string or a content object. Instead, it was:\n " ++
        (pyRepr x ++ pageErrTail)))).data.head? = some ':' := rfl
  rw [ha, hb] at h3
  exact absurd h3 (by decide)

/-- C9: with the state-history check passing, a `Page` whose content is a
plain string fails verification with the string-content diagnostic, a
`Page` whose content list holds an item that is neither a string nor a
content node fails with the bad-item diagnostic, and the two diagnostics
are different strings for every interpolated value.  The same distinction
already exists one layer down in `Page.__init__`: a string content and a
bad list item raise their own distinct ValueErrors, so each malformed
result always fails. -/
theorem C9_content_validation (fnName : String) (hist : List PyVal) (st : PyVal)
    (s : String) (items : List PyVal) (x y : PyVal) (i : Nat)
    (hstate : verify_page_state_history hist fnName st = .ok ())
    (hlast : (items.filter (fun it => !(isStrVal it || isPageContent it))).getLast? =
      some x)
    (hfirst : firstBadIndex items 0 = some (y, i)) :
    verify_page_result hist fnName (.rPage st (.vStr s)) =
      .error (msgContentStr fnName (.vStr s)) ∧
    verify_page_result hist fnName (.rPage st (.vList items)) =
      .error (msgContentBadItem fnName (.vList items) x) ∧
    msgContentStr fnName (.vStr s) ≠ msgContentBadItem fnName (.vList items) x ∧
    pageInit st (.vStr s) = .error (contentNotListMsg (.vStr s)) ∧
    pageInit st (.vList items) = .error (contentBadItemMsg y i) ∧
    contentNotListMsg (.vStr "hello") ≠ contentBadItemMsg (.vInt 42) 0 := by
  refine ⟨?_, ?_, msgContentStr_ne_badItem fnName (.vStr s) (.vList items) x, ?_, ?_,
    by decide⟩
  · simp only [verify_page_result, hstate]
  · simp only [verify_page_result, hstate, hlast]
  · simp only [pageInit]
  · simp only [pageInit, hfirst]

theorem C9_content_validation_witness :
    (verify_page_state_history [] "index" (PyVal.vInt 0) = .ok ()) ∧
    (([PyVal.vInt 42].filter
        (fun it => !(isStrVal it || isPageContent it))).getLast? =
      some (PyVal.vInt 42)) ∧
    (firstBadIndex [PyVal.vInt 42] 0 = some (PyVal.vInt 42, 0)) ∧
    (verify_page_result [] "index" (.rPage (PyVal.vInt 0) (.vStr "hello")) =
      .error (msgContentStr "index" (.vStr "hello")) ∧
    verify_page_result [] "index" (.rPage (PyVal.vInt 0) (.vList [PyVal.vInt 42])) =
      .error (msgContentBadItem "index" (.vList [PyVal.vInt 42]) (PyVal.vInt 42)) ∧
    msgContentStr "index" (.vStr "hello") ≠
      msgContentBadItem "index" (.vList [PyVal.vInt 42]) (PyVal.vInt 42) ∧
    pageInit (PyVal.vInt 0) (.vStr "hello") =
      .error (contentNotListMsg (.vStr "hello")) ∧
    pageInit (PyVal.vInt 0) (.vList [PyVal.vInt 42]) =
      .error (contentBadItemMsg (PyVal.vInt 42) 0) ∧
    contentNotListMsg (.vStr "hello") ≠ contentBadItemMsg (.vInt 42) 0) :=
  ⟨rfl, rfl, rfl,
    C9_content_validation "index" [] (PyVal.vInt 0) "hello" [PyVal.vInt 42]
      (PyVal.vInt 42) (PyVal.vInt 42) 0 rfl rfl rfl⟩

end Drafter
